import Mathlib

/-!
Verification of the muninn-iers extension (src/muninn_iers.py) against its
natural-language specification.  The Python source is shallowly embedded:
strings become `List Char`, fallible operations return `Option`, and the
synchronizer loop becomes a fuel-indexed recursive function.  Machine
integers are modeled as `Nat` (Python integers are unbounded, so no
wrap-around modeling is needed).
-/

namespace MuninnIers

/-! ## Basic string utilities (List Char model of Python str operations) -/

/-- The `startsWithLit p s`: `s` begins with the literal character sequence `p`
(Python `s[i:i+len(p)] == p` at `i = 0`, or `str.startswith`). -/
def startsWithLit : List Char → List Char → Bool
  | [], _ => true
  | _ :: _, [] => false
  | c :: cs, d :: ds => c == d && startsWithLit cs ds

/-- The `endsWithLit p s`: `s` ends with the literal sequence `p` (Python `str.endswith`). -/
def endsWithLit (p s : List Char) : Bool :=
  startsWithLit p.reverse s.reverse

/-- The `containsSub needle s`: Python substring test `needle in s`. -/
def containsSub (needle : List Char) : List Char → Bool
  | [] => startsWithLit needle []
  | c :: s => startsWithLit needle (c :: s) || containsSub needle s

/-- Drop the literal `p` from the front of `s`, failing when `s` does not
start with `p` (used to embed the literal parts of the filename regexes). -/
def dropLit : List Char → List Char → Option (List Char)
  | [], s => some s
  | _ :: _, [] => none
  | c :: cs, d :: ds => if c = d then dropLit cs ds else none

/-- Take exactly `n` characters, each satisfying `f`; return them and the
rest (embedding of a regex piece such as the 3-digit pattern). -/
def takeCount : Nat → (Char → Bool) → List Char → Option (List Char × List Char)
  | 0, _, s => some ([], s)
  | _ + 1, _, [] => none
  | n + 1, f, c :: s =>
    if f c then (takeCount n f s).map (fun t => (c :: t.1, t.2)) else none

/-- ASCII whitespace recognized by Python `str.split()` / `str.strip()`. -/
def isWs (c : Char) : Bool :=
  c == ' ' || c == '\t' || c == '\n' || c == '\r' || c == '\x0b' || c == '\x0c'

/-- Worker for `splitWs`; `acc` holds the current token reversed. -/
def splitWsGo : List Char → List Char → List (List Char)
  | [], acc => if acc.isEmpty then [] else [acc.reverse]
  | c :: s, acc =>
    if isWs c then
      (if acc.isEmpty then splitWsGo s [] else acc.reverse :: splitWsGo s [])
    else splitWsGo s (c :: acc)

/-- Python `str.split()` with no argument: split on runs of whitespace,
discarding empty tokens. -/
def splitWs (s : List Char) : List (List Char) := splitWsGo s []

/-- Worker for `splitChar`. -/
def splitCharGo (sep : Char) : List Char → List Char → List (List Char)
  | [], acc => [acc.reverse]
  | c :: s, acc =>
    if c == sep then acc.reverse :: splitCharGo sep s []
    else splitCharGo sep s (c :: acc)

/-- Python `str.split(sep)` for a single-character separator: keeps empty
pieces and always returns at least one piece. -/
def splitChar (sep : Char) (s : List Char) : List (List Char) := splitCharGo sep s []

/-- Python `str.strip()`: remove leading and trailing whitespace. -/
def trimL (s : List Char) : List Char :=
  ((s.dropWhile isWs).reverse.dropWhile isWs).reverse

/-- Python `os.path.basename`: the part of the path after the last `/`. -/
def basename (s : List Char) : List Char :=
  (s.reverse.takeWhile (fun c => c != '/')).reverse

/-- Python `os.path.splitext` restricted to the simple names this plugin
produces and validates: split at the last `.` (root, extension). -/
def splitextExt (s : List Char) : List Char × List Char :=
  let revExt := s.reverse.takeWhile (fun c => c != '.')
  if revExt.length = s.length then (s, [])
  else ((s.take (s.length - revExt.length - 1)), '.' :: revExt.reverse)

/-! ## Roman numeral codec (`romanNumeralMap`, `fromRoman`, `toRoman`) -/

/-- The fixed ordered numeral table from the source. -/
def romanNumeralMap : List (List Char × Nat) :=
  [(['M'], 1000), (['C', 'M'], 900), (['D'], 500), (['C', 'D'], 400),
   (['C'], 100), (['X', 'C'], 90), (['L'], 50), (['X', 'L'], 40),
   (['X'], 10), (['I', 'X'], 9), (['V'], 5), (['I', 'V'], 4), (['I'], 1)]

/-- The `cs` repeated `k` times. -/
def repList (cs : List Char) : Nat → List Char
  | 0 => []
  | k + 1 => cs ++ repList cs k

/-- The `toRoman` (source lines 43-49): for each table entry, the inner
`while n >= integer` loop appends the numeral `n / integer` times and leaves
`n % integer`, largest value first. -/
def toRoman (n : Nat) : List Char :=
  (romanNumeralMap.foldl
    (fun acc p => (acc.1 ++ repList p.1 (acc.2 / p.2), acc.2 % p.2))
    (([] : List Char), n)).1

/-- Inner `while s[index:index+len(numeral)] == numeral` loop of `fromRoman`:
count how many copies of `numeral` occur consecutively at the front of `s`
and return the remainder.  `fuel ≥ s.length` makes the recursion total; the
numerals in the table are nonempty, so the fuel never runs out before the
loop condition fails. -/
def stripRunsGo (numeral : List Char) : Nat → List Char → Nat × List Char
  | 0, s => (0, s)
  | fuel + 1, s =>
    if startsWithLit numeral s then
      let r := stripRunsGo numeral fuel (s.drop numeral.length)
      (r.1 + 1, r.2)
    else (0, s)

/-- The `fromRoman` (source lines 32-40): upper-case the input, then for each
table entry greedily consume consecutive copies at the current position,
accumulating their values.  Unmatched trailing characters are ignored. -/
def fromRoman (s0 : List Char) : Nat :=
  let s := s0.map Char.toUpper
  (romanNumeralMap.foldl
    (fun acc p =>
      let r := stripRunsGo p.1 acc.2.length acc.2
      (acc.1 + r.1 * p.2, r.2))
    ((0 : Nat), s)).1

/-! ## Decimal rendering and parsing of numbers

Python's Python 03-width formatting renders `n` in decimal, left-padded with zeros to
width 3; `int(tok)` parses a decimal token.  `int` is modeled for the
unsigned decimal tokens that actually occur in bulletin documents and
filename captures (the 3-digit pattern is modeled as ASCII digits). -/

/-- Decimal digits of `n`, most significant first, for `n ≠ 0`; the fuel
argument only bounds the recursion (`fuel ≥ n` suffices). -/
def decDigitsGo : Nat → Nat → List Char
  | 0, _ => []
  | fuel + 1, n =>
    if n = 0 then []
    else decDigitsGo fuel (n / 10) ++ [Char.ofNat (48 + n % 10)]

/-- Decimal representation of a natural number (Python `str(n)` for `n ≥ 0`). -/
def decRepr (n : Nat) : List Char :=
  if n = 0 then ['0'] else decDigitsGo (n + 1) n

/-- Python Python 03-width formatting: zero-pad the decimal representation to width 3. -/
def pad3 (n : Nat) : List Char :=
  let s := decRepr n
  List.replicate (3 - s.length) '0' ++ s

/-- Value of a string of decimal digits (Python `int` on a digit string). -/
def digitsToNat (s : List Char) : Nat :=
  s.foldl (fun a c => 10 * a + (c.toNat - 48)) 0

/-- Python `int(tok)` on a whitespace-free token, modeled for unsigned
decimal notation; any other token raises `ValueError` (`none`). -/
def parseIntTok (s : List Char) : Option Nat :=
  if s ≠ [] ∧ s.all Char.isDigit then some (digitsToNat s) else none

/-! ## Dates (model of `datetime.datetime` at day granularity) -/

/-- A calendar date.  `datetime` comparison coincides with lexicographic
comparison of (year, month, day) for valid dates. -/
structure Date where
  year : Nat
  month : Nat
  day : Nat
deriving DecidableEq

/-- Gregorian leap-year rule used by `datetime`. -/
def isLeap (y : Nat) : Bool :=
  y % 4 == 0 && (y % 100 != 0 || y % 400 == 0)

/-- Length of month `m` of year `y`. -/
def daysInMonth (y m : Nat) : Nat :=
  if m = 2 then (if isLeap y then 29 else 28)
  else if m = 4 ∨ m = 6 ∨ m = 9 ∨ m = 11 then 30
  else 31

/-- The `datetime(year, month, day)`: fails (`ValueError`) outside the
supported range, like the Python constructor. -/
def mkDate (y m d : Nat) : Option Date :=
  if 1 ≤ y ∧ y ≤ 9999 ∧ 1 ≤ m ∧ m ≤ 12 ∧ 1 ≤ d ∧ d ≤ daysInMonth y m then
    some ⟨y, m, d⟩
  else none

/-- The `datetime` ordering (`a <= b`), lexicographic on (year, month, day). -/
def dateLeB (a b : Date) : Bool :=
  a.year < b.year ||
    (a.year == b.year &&
      (a.month < b.month || (a.month == b.month && a.day ≤ b.day)))

/-- The `dt + timedelta(days=1)` for a valid date. -/
def addOneDay (dt : Date) : Date :=
  if dt.day < daysInMonth dt.year dt.month then ⟨dt.year, dt.month, dt.day + 1⟩
  else if dt.month < 12 then ⟨dt.year, dt.month + 1, 1⟩
  else ⟨dt.year + 1, 1, 1⟩

/-- The `dt + timedelta(days=1)` including the `OverflowError` at the
`datetime` upper bound 9999-12-31. -/
def addOneDayO (dt : Date) : Option Date :=
  if dt.year = 9999 ∧ dt.month = 12 ∧ dt.day = 31 then none
  else some (addOneDay dt)

/-- The English and French month-name table (`monthMap`, source lines 59-84). -/
def monthMap : List (List Char × Nat) :=
  [("january".toList, 1), ("february".toList, 2), ("march".toList, 3),
   ("april".toList, 4), ("may".toList, 5), ("june".toList, 6),
   ("july".toList, 7), ("august".toList, 8), ("september".toList, 9),
   ("october".toList, 10), ("november".toList, 11), ("december".toList, 12),
   ("janvier".toList, 1), ("fevrier".toList, 2), ("mars".toList, 3),
   ("avril".toList, 4), ("mai".toList, 5), ("juin".toList, 6),
   ("juillet".toList, 7), ("aout".toList, 8), ("septembre".toList, 9),
   ("octobre".toList, 10), ("novembre".toList, 11), ("decembre".toList, 12)]

/-- The `parse_text_date` (source lines 87-92): split on whitespace into exactly
three tokens (`day month year`, or `year month day` when `inverted`), look
the month name up case-insensitively, and build a `datetime`. -/
def parse_text_date (inverted : Bool) (s : List Char) : Option Date :=
  match splitWs s with
  | [t1, t2, t3] =>
    let dayT := if inverted then t3 else t1
    let monthT := t2
    let yearT := if inverted then t1 else t3
    match List.lookup (monthT.map Char.toLower) monthMap with
    | none => none
    | some m =>
      match parseIntTok yearT, parseIntTok dayT with
      | some y, some d => mkDate y m d
      | _, _ => none
  | _ => none

/-- Python list indexing `xs[i]` with negative-index wrap-around;
out-of-range indices raise `IndexError` (`none`). -/
def pyGetI {α : Type} (xs : List α) (i : Int) : Option α :=
  if 0 ≤ i then xs.get? i.toNat
  else
    let j : Int := (xs.length : Int) + i
    if 0 ≤ j then xs.get? j.toNat else none

/-- The `year, month, day = [int(x) for x in line.split()[:3]]`: the first three
whitespace tokens as integers; fewer than three tokens or a non-numeric
token raises `ValueError` (`none`). -/
def first3Nats (l : List Char) : Option (Nat × Nat × Nat) :=
  match (splitWs l).take 3 with
  | [a, b, c] =>
    match parseIntTok a, parseIntTok b, parseIntTok c with
    | some x, some y, some z => some (x, y, z)
    | _, _, _ => none
  | _ => none

/-! ## Bulletin families

The four product types `IERS_A` .. `IERS_D` from the source, as a closed
enumeration.  Family A's index is a `(volume, number)` pair; the other
families use a single integer. -/

inductive Fam where
  | A | B | C | D
deriving DecidableEq

/-- Index type of a family. -/
@[reducible] def Idx : Fam → Type
  | .A => Nat × Nat
  | _ => Nat

/-- Literal head of each family's `filename_pattern` (up to the first
capture group). -/
def famLit : Fam → List Char
  | .A => "bulletina-".toList
  | .B => "bulletinb-".toList
  | .C => "bulletinc-".toList
  | .D => "bulletind-".toList

/-- The `url_id` configured per family. -/
def url_id : Fam → Nat
  | .A => 6
  | .B => 207
  | .C => 16
  | .D => 17

/-- The `offset` (starting index) per family. -/
def offsetF : (f : Fam) → Idx f
  | .A => (18, 1)
  | .B => 253
  | .C => 10
  | .D => 21

/-- The `IERSBulletinA.missing`. -/
def missingA : List (Nat × Nat) := [(18, 5)]

/-- The `IERSBulletinD.missing`. -/
def missingD : List Nat := [25, 26, 27, 29, 34, 35, 38, 42, 45, 47, 48, 49]

/-- The `extensions` list shared by all four families. -/
def extensionsF (_ : Fam) : List (List Char) := [".txt".toList, ".xml".toList]

/-- The volume character class `[xvi]` of family A's pattern. -/
def isRomanCh (c : Char) : Bool := c == 'x' || c == 'v' || c == 'i'

/-- The `re.match("^" + filename_pattern, s)`: match the family's pattern at the
start of `s`, returning the captured groups (optional volume, number) and
the unmatched rest of the string.

Although the regex engine backtracks in general, these patterns are
deterministic: the characters of `[xvi]+` are disjoint from the following
literal `-`, so the greedy maximal run is the only possible match, and
the 3-digit pattern has fixed length.  The embedding therefore uses a deterministic
maximal-munch parse. -/
def parse_filename_rest (f : Fam) (s0 : List Char) :
    Option ((Option (List Char) × List Char) × List Char) :=
  match f with
  | .A =>
    match dropLit (famLit .A) s0 with
    | none => none
    | some s1 =>
      if (s1.takeWhile isRomanCh).isEmpty then none
      else
        match s1.dropWhile isRomanCh with
        | '-' :: s3 =>
          match takeCount 3 Char.isDigit s3 with
          | none => none
          | some (num, rest) => some ((some (s1.takeWhile isRomanCh), num), rest)
        | _ => none
  | g =>
    match dropLit (famLit g) s0 with
    | none => none
    | some s1 =>
      match takeCount 3 Char.isDigit s1 with
      | none => none
      | some (num, rest) => some ((none, num), rest)

/-- The `IERSBulletin.parse_filename` (source lines 134-138): apply the pattern
to the basename; `None` when it does not match. -/
def parse_filename (f : Fam) (filename : List Char) :
    Option (Option (List Char) × List Char) :=
  (parse_filename_rest f (basename filename)).map (fun r => r.1)

/-- The `index_for_physical_name` (source lines 186-188 and 231-233): derive
the family index from a filename.  When `parse_filename` returns `None`
the Python code crashes on `name_attrs[...]`; this is modeled as `none`. -/
def index_for_physical_name (f : Fam) (physical_name : List Char) : Option (Idx f) :=
  match f, parse_filename f physical_name with
  | _, none => none
  | .A, some a =>
    match a.1 with
    | some vol => some ((fromRoman vol, digitsToNat a.2) : Idx .A)
    | none => none
  | .B, some a => some (digitsToNat a.2)
  | .C, some a => some (digitsToNat a.2)
  | .D, some a => some (digitsToNat a.2)

/-- The `physical_name_for_index` (source lines 235-236, 278-279, 302-303,
337-338): `"-".join([...]) + "." + format`, with family A's volume as a
lower-case Roman numeral and all numbers zero-padded to width 3. -/
def physical_name_for_index : (f : Fam) → (format : List Char) → Idx f → List Char
  | .A, fmt, idx =>
    List.intercalate ['-']
      ["bulletina".toList, (toRoman idx.1).map Char.toLower, pad3 idx.2] ++ '.' :: fmt
  | .B, fmt, n => List.intercalate ['-'] ["bulletinb".toList, pad3 n] ++ '.' :: fmt
  | .C, fmt, n => List.intercalate ['-'] ["bulletinc".toList, pad3 n] ++ '.' :: fmt
  | .D, fmt, n => List.intercalate ['-'] ["bulletind".toList, pad3 n] ++ '.' :: fmt

/-- The `next_index` (source lines 190-191 and 238-242): family A wraps from
number 53 to the next volume; the other families increment. -/
def next_index : (f : Fam) → Idx f → Idx f
  | .A, idx => if idx.2 = 53 then (idx.1 + 1, 1) else (idx.1, idx.2 + 1)
  | .B, n => n + 1
  | .C, n => n + 1
  | .D, n => n + 1

/-- The `can_skip_index` (source lines 193-194, 244-248, 340-341).  Family A's
override returns `True` for a missing or number-53 index and otherwise
falls off the end of the function, returning Python `None`; the result is
therefore modeled as `Option Bool` (`none` = `None`). -/
def can_skip_index : (f : Fam) → Idx f → Option Bool
  | .A, idx =>
    if idx ∈ missingA then some true
    else if idx.2 = 53 then some true
    else none
  | .B, _ => some false
  | .C, _ => some false
  | .D, n => some (n ∈ missingD)

/-- Python truthiness of a `bool`-or-`None` value, as used by
`if not plugin.can_skip_index(index)` in the synchronizer. -/
def pyTruthy : Option Bool → Bool
  | none => false
  | some b => b

/-- The `remote_url` (source lines 140-146): `.xml` files map to the shared XML
catalog, `.txt` files to the family's numeric catalog; any other extension
raises (`none`). -/
def remote_url (f : Fam) (physical_name : List Char) : Option (List Char) :=
  let ext := (splitextExt physical_name).2
  if ext = ".xml".toList then
    some ("https://datacenter.iers.org/data/xml/".toList ++ physical_name)
  else if ext = ".txt".toList then
    some ("https://datacenter.iers.org/data/".toList ++ decRepr (url_id f)
      ++ "/".toList ++ physical_name)
  else none

/-- The metadata record populated by `analyze`.  Fields that only some
families set are `Option`s; the externally supplied core fields (uuid,
size, active flag) belong to the synchronizer boundary and are not part of
the parsed record. -/
structure BulletinProps where
  product_name : List Char
  remote_url : List Char
  volume : Option Nat
  number : Nat
  creation_date : Option Date := none
  validity_start : Option Date := none
  validity_stop : Option Date := none
deriving DecidableEq

/-- The filename-derived part of `analyze` (source lines 160-174), which is
everything `analyze` computes when `filename_only=True`.  A filename that
fails the grammar makes the Python code crash on `name_attrs['number']`
(and an invalid extension raises in `remote_url`); both are modeled as
`none`. -/
def analyzeNameOnly (f : Fam) (inpath : List Char) : Option BulletinProps :=
  let physical_name := basename inpath
  let attrs := parse_filename f inpath
  let product_name := (splitextExt physical_name).1
  match remote_url f physical_name with
  | none => none
  | some url =>
    match attrs with
    | none => none
    | some a =>
      some { product_name := product_name
             remote_url := url
             volume := a.1.map fromRoman
             number := digitsToNat a.2 }

/-! ## `identify` and its specification

`identify` (source lines 148-155) tests
`re.match("^" + filename_pattern + extension + "$", basename)` for each
accepted extension.  The extension string `".txt"` is spliced into the
regex verbatim, so its `.` is the regex wildcard: the compiled pattern is
`grammar`, then ANY single character, then `txt` (or `xml`), then
end-of-string. -/

/-- Match the characters of a regex fragment consisting of literal
characters and the `.` wildcard (the only regex constructs appearing in the
spliced extension strings), returning the rest of the input.  Python's
dot matches any character EXCEPT a newline (the `re.DOTALL` flag is not
used by the source). -/
def reChars : List Char → List Char → Option (List Char)
  | [], s => some s
  | _ :: _, [] => none
  | p :: ps, c :: s =>
    if p == c || (p == '.' && c != '\n') then reChars ps s else none

/-- The `$` anchor without `re.MULTILINE`: it matches at the end of the
string and also just before a single trailing newline, so the unconsumed
rest may be empty or exactly one newline. -/
def dollarEnd (rest : List Char) : Bool :=
  rest == [] || rest == ['\n']

/-- The `IERSBulletin.identify`: true iff exactly one path is given and its
basename fully matches `pattern + extension + "$"` for one of the accepted
extensions. -/
def identify (f : Fam) (paths : List (List Char)) : Bool :=
  match paths with
  | [p] =>
    (extensionsF f).any (fun ext =>
      match parse_filename_rest f (basename p) with
      | none => false
      | some r =>
        match reChars ext r.2 with
        | none => false
        | some rest => dollarEnd rest)
  | _ => false

/-- A word of the family's filename grammar, written as the spec describes
it: the literal head, (for family A) a nonempty run of `[xvi]` and a
hyphen, and a 3-digit number. -/
def grammarWord (f : Fam) (stem : List Char) : Prop :=
  match f with
  | .A => ∃ rom num, stem = famLit .A ++ rom ++ '-' :: num ∧ rom ≠ [] ∧
      rom.all isRomanCh = true ∧ num.length = 3 ∧ num.all Char.isDigit = true
  | g => ∃ num, stem = famLit g ++ num ∧ num.length = 3 ∧
      num.all Char.isDigit = true

/-- The spec's reading of `identify` (§4.3): exactly one path whose
basename is a grammar word followed by one of the accepted extensions
(`".txt"` or `".xml"`, dot included, taken literally). -/
def identifySpec (f : Fam) (paths : List (List Char)) : Prop :=
  ∃ p, paths = [p] ∧ ∃ stem ext, ext ∈ extensionsF f ∧
    basename p = stem ++ ext ∧ grammarWord f stem

/-- What the code actually accepts: a grammar word, then any single
non-newline character (the unescaped regex dot), then `txt` or `xml`,
optionally followed by one trailing newline (matched by the `$` anchor). -/
def identifySpecWild (f : Fam) (paths : List (List Char)) : Prop :=
  ∃ p, paths = [p] ∧ ∃ stem c tail, ('.' :: tail) ∈ extensionsF f ∧
    (c != '\n') = true ∧
    (basename p = stem ++ c :: tail ∨ basename p = stem ++ (c :: tail) ++ ['\n']) ∧
    grammarWord f stem

/-! ## Text-content extractors for families B and C

`analyze` (source lines 176-180) reads a `.txt` file as
`[line for line in [line.strip() for line in file] if len(line) > 0]` and
passes the resulting clean line list to the family's `_analyze_txt`.  Each
assignment of `_analyze_txt` is embedded as its own definition; an
exception anywhere aborts `analyze`, so the record exists only when every
step succeeds. -/

/-- The stripped, nonempty lines handed to `_analyze_txt`. -/
def cleanLines (raw : List (List Char)) : List (List Char) :=
  (raw.map trimL).filter (fun l => l.length > 0)

/-- Family C creation date (source lines 292-293): the first line containing
`"Paris, "`, last comma field, stripped, parsed as `day month year`. -/
def parisDateC (lines : List (List Char)) : Option Date :=
  match (lines.filter (fun l => containsSub "Paris, ".toList l)).head? with
  | none => none
  | some line =>
    match (splitChar ',' line).getLast? with
    | none => none
    | some tok => parse_text_date false (trimL tok)

/-- Family C validity start (source lines 294-295): the first line starting
with `"from "`, first comma field with the first 5 characters removed,
parsed as `year month day`. -/
def fromDateC (lines : List (List Char)) : Option Date :=
  match (lines.filter (fun l => startsWithLit "from ".toList l)).head? with
  | none => none
  | some line =>
    match (splitChar ',' line).head? with
    | none => none
    | some piece => parse_text_date true (piece.drop 5)

/-- The `IERSBulletinC._analyze_txt` (source lines 291-295). -/
def analyzeTxtC (lines : List (List Char)) : Option (Date × Date) :=
  match parisDateC lines with
  | none => none
  | some c =>
    match fromDateC lines with
    | none => none
    | some s => some (c, s)

/-- The `IERSBulletinC.analyze` on a `.txt` path with `filename_only=False`:
filename-derived fields plus the text extractor. -/
def analyzeTxtFullC (inpath : List Char) (raw : List (List Char)) :
    Option BulletinProps :=
  if endsWithLit ".txt".toList inpath then
    match analyzeNameOnly .C inpath with
    | none => none
    | some base =>
      match analyzeTxtC (cleanLines raw) with
      | none => none
      | some cs =>
        some { base with creation_date := some cs.1, validity_start := some cs.2 }
  else none

/-- Family B creation date (source line 261): `parse_text_date(lines[1])`. -/
def creationDateB (lines : List (List Char)) : Option Date :=
  match lines.get? 1 with
  | none => none
  | some l => parse_text_date false l

/-- Family B validity start (source lines 263-265): two lines below
`"Final values"`, first three whitespace tokens as year, month, day. -/
def startDateB (lines : List (List Char)) : Option Date :=
  match lines.findIdx? (fun l => l == "Final values".toList) with
  | none => none
  | some i =>
    match lines.get? (i + 2) with
    | none => none
    | some l =>
      match first3Nats l with
      | none => none
      | some ymd => mkDate ymd.1 ymd.2.1 ymd.2.2

/-- Family B last-entry date (source lines 267-268): the line before the
first line containing `"CELESTIAL POLE OFFSETS"` (Python's `idx - 1`
wraps to the last line when `idx = 0`), first three tokens as a date. -/
def stopAnchorDateB (lines : List (List Char)) : Option Date :=
  match lines.findIdx? (fun l => containsSub "CELESTIAL POLE OFFSETS".toList l) with
  | none => none
  | some i =>
    match pyGetI lines ((i : Int) - 1) with
    | none => none
    | some l =>
      match first3Nats l with
      | none => none
      | some ymd => mkDate ymd.1 ymd.2.1 ymd.2.2

/-- The `IERSBulletinB._analyze_txt` (source lines 260-269): creation date,
validity start, and validity stop = last-entry date plus one day. -/
def analyzeTxtB (lines : List (List Char)) : Option (Date × Date × Date) :=
  match creationDateB lines with
  | none => none
  | some c =>
    match startDateB lines with
    | none => none
    | some s =>
      match stopAnchorDateB lines with
      | none => none
      | some z =>
        match addOneDayO z with
        | none => none
        | some z1 => some (c, s, z1)

/-- The `IERSBulletinB.analyze` on a `.txt` path with `filename_only=False`. -/
def analyzeTxtFullB (inpath : List Char) (raw : List (List Char)) :
    Option BulletinProps :=
  if endsWithLit ".txt".toList inpath then
    match analyzeNameOnly .B inpath with
    | none => none
    | some base =>
      match analyzeTxtB (cleanLines raw) with
      | none => none
      | some csz =>
        some { base with creation_date := some csz.1,
                         validity_start := some csz.2.1,
                         validity_stop := some csz.2.2 }
  else none

/-! ## Synchronizer (`IERSSynchronizer.sync`, source lines 395-426)

The remote catalog is abstracted as `probe : physical name → HTTP status`
(a `HEAD` request).  The archive is write-only here: created records are
collected as the list of physical names handed to
`archive.create_properties`, in creation order.  The loop is indexed by
fuel because the Python loop need not terminate; `none` means the fuel ran
out while the loop was still running. -/

/-- How a family's walk ended. -/
inductive SyncOut where
  | done
  | fatal
deriving DecidableEq

/-- One family's probe loop (source lines 407-426).  Status 200 creates a
record via `analyze(..., filename_only=True)` and advances (an analyze
crash is fatal); status 404 advances on a skippable index and otherwise
breaks; `raise_for_status()` raises exactly for statuses in [400, 600),
so any other status outside that range silently advances. -/
def syncLoop (f : Fam) (fmt : List Char) (probe : List Char → Nat) :
    Nat → Idx f → List (List Char) → Option (SyncOut × List (List Char))
  | 0, _, _ => none
  | fuel + 1, idx, acc =>
    let pname := physical_name_for_index f fmt idx
    let st := probe pname
    if st = 200 then
      match analyzeNameOnly f pname with
      | none => some (.fatal, acc)
      | some _ => syncLoop f fmt probe fuel (next_index f idx) (acc ++ [pname])
    else if st = 404 then
      if pyTruthy (can_skip_index f idx) then
        syncLoop f fmt probe fuel (next_index f idx) acc
      else some (.done, acc)
    else if 400 ≤ st ∧ st < 600 then some (.fatal, acc)
    else syncLoop f fmt probe fuel (next_index f idx) acc

/-- The outer loop of `sync` over the requested families.  The start index
of each family comes from the external archive query (or the family's
`offset`), abstracted as `startIdx`.  A fatal error in one family aborts
the whole run: later families are not processed. -/
def syncAll (fmt : List Char) (probe : List Char → Nat)
    (startIdx : (f : Fam) → Idx f) (fuel : Nat) :
    List Fam → List (List Char) → Option (SyncOut × List (List Char))
  | [], acc => some (.done, acc)
  | f :: fs, acc =>
    match syncLoop f fmt probe fuel (startIdx f) acc with
    | none => none
    | some (.fatal, acc') => some (.fatal, acc')
    | some (.done, acc') => syncAll fmt probe startIdx fuel fs acc'

/-- A valid index of a family: one whose formatted physical name stays
inside the family's filename grammar (3-digit zero-padded number, and for
family A a volume whose Roman numeral uses only the characters `x`, `v`,
`i` accepted by the `[xvi]+` pattern, i.e. a volume in [1, 39]). -/
def validIndex : (f : Fam) → Idx f → Prop
  | .A, idx => 1 ≤ idx.1 ∧ idx.1 ≤ 39 ∧ idx.2 ≤ 999
  | .B, n => n ≤ 999
  | .C, n => n ≤ 999
  | .D, n => n ≤ 999

/-- The dates `datetime` can represent. -/
def validDate (d : Date) : Prop :=
  1 ≤ d.year ∧ d.year ≤ 9999 ∧ 1 ≤ d.month ∧ d.month ≤ 12 ∧
    1 ≤ d.day ∧ d.day ≤ daysInMonth d.year d.month

/-! ## Multi-character split and MJD arithmetic -/

/-- Worker for `splitLit`; the fuel only bounds the recursion
(`fuel ≥ length of the input` suffices, each step consumes at least one
character for a nonempty separator). -/
def splitLitGo (sep : List Char) : Nat → List Char → List Char → List (List Char)
  | _, [], acc => [acc.reverse]
  | 0, s, acc => [acc.reverse ++ s]
  | fuel + 1, c :: s, acc =>
    if startsWithLit sep (c :: s) then
      acc.reverse :: splitLitGo sep fuel ((c :: s).drop sep.length) []
    else
      splitLitGo sep fuel s (c :: acc)

/-- Python `str.split(sep)` for a nonempty multi-character separator:
scan left to right, cutting at non-overlapping occurrences. -/
def splitLit (sep s : List Char) : List (List Char) :=
  splitLitGo sep s.length s []

/-- One day earlier, for a valid date; `none` at the `datetime` lower
bound 0001-01-01, where Python raises `OverflowError`. -/
def predOneDayO (dt : Date) : Option Date :=
  if dt.year = 1 ∧ dt.month = 1 ∧ dt.day = 1 then none
  else some
    (if 1 < dt.day then ⟨dt.year, dt.month, dt.day - 1⟩
     else if 1 < dt.month then ⟨dt.year, dt.month - 1, daysInMonth dt.year (dt.month - 1)⟩
     else ⟨dt.year - 1, 12, 31⟩)

/-- The `dt + timedelta(days=k)` for `k ≥ 0`. -/
def addDaysO : Date → Nat → Option Date
  | dt, 0 => some dt
  | dt, k + 1 =>
    match addOneDayO dt with
    | none => none
    | some d2 => addDaysO d2 k

/-- The `dt - timedelta(days=k)` for `k ≥ 0`. -/
def subDaysO : Date → Nat → Option Date
  | dt, 0 => some dt
  | dt, k + 1 =>
    match predOneDayO dt with
    | none => none
    | some d2 => subDaysO d2 k

/-- The `mjd_to_datetime` (source lines 95-97):
`datetime(2000, 1, 1) + timedelta(days = mjd - 51544)`; 2000-01-01 is
MJD 51544.  The MJD comes from `int` on a document token, modeled as
unsigned, so days before the epoch arise only for MJD below 51544. -/
def mjd_to_datetime (mjd : Nat) : Option Date :=
  if 51544 ≤ mjd then addDaysO ⟨2000, 1, 1⟩ (mjd - 51544)
  else subDaysO ⟨2000, 1, 1⟩ (51544 - mjd)

/-! ## XML document model

The source parses `.xml` documents with `xml.etree.ElementTree` and reads
fixed element paths under the IERS namespace.  An element tree is modeled
as a rose tree carrying tag, text and children; `find`/`findall` with a
slash-separated path traverse matching children in document order. -/

inductive Xml where
  | node (tag : List Char) (text : Option (List Char)) (children : List Xml)

/-- Tag of an element. -/
def xmlTag : Xml → List Char
  | .node t _ _ => t

/-- Text of an element (`Element.text`, possibly `None`). -/
def xmlText : Xml → Option (List Char)
  | .node _ tx _ => tx

/-- Children of an element. -/
def xmlChildren : Xml → List Xml
  | .node _ _ cs => cs

/-- The `Element.findall` for a tag path: all elements reached by following
children with the given tags, in document order. -/
def findallPath : List (List Char) → Xml → List Xml
  | [], e => [e]
  | t :: rest, e =>
    (((xmlChildren e).filter (fun c => xmlTag c == t)).map (findallPath rest)).flatten

/-- The `Element.find`: the first match of `findall`, or `None`. -/
def findPath (path : List (List Char)) (e : Xml) : Option Xml :=
  (findallPath path e).head?

/-- The namespace prefix `NSIERS` (source line 117); ElementTree writes a
namespace into a tag as the URI between a pair of curly braces. -/
def NSIERS : List Char := "\x7bhttp://www.iers.org/2003/schema/iers\x7d".toList

/-- A namespace-qualified tag, as built by the source's f-strings. -/
def nsTag (s : String) : List Char := NSIERS ++ s.toList

/-- The `datetime.strptime(text, "%Y-%m-%d")`, modeled for unsigned decimal
fields. -/
def strptimeYmd (s : List Char) : Option Date :=
  match splitChar '-' s with
  | [ys, ms, ds] =>
    match parseIntTok ys, parseIntTok ms, parseIntTok ds with
    | some y, some m, some d => mkDate y m d
    | _, _, _ => none
  | _ => none

/-- The `parse_xml_time` (source lines 52-56): the year/month/day child
elements of a `time` element; a missing element or text fails
(`AttributeError`/`TypeError` in Python). -/
def parse_xml_time (tEl : Xml) : Option Date :=
  match findPath [nsTag "dateYear"] tEl, findPath [nsTag "dateMonth"] tEl,
      findPath [nsTag "dateDay"] tEl with
  | some ye, some me, some de =>
    match xmlText ye >>= parseIntTok, xmlText me >>= parseIntTok,
        xmlText de >>= parseIntTok with
    | some y, some m, some d => mkDate y m d
    | _, _, _ => none
  | _, _, _ => none

/-! ## Text extractors for families A and D -/

/-- Family A creation date (source lines 208-211): skip the leading lines
starting with `*`, then parse the first 40 characters of the next line,
stripped.  When every line starts with `*` (or there are no lines) the
Python indexing raises. -/
def creationDateA (lines : List (List Char)) : Option Date :=
  match lines.findIdx? (fun l => !(startsWithLit ['*'] l)) with
  | none => none
  | some i =>
    match lines.get? i with
    | none => none
    | some l => parse_text_date false (trimL (l.take 40))

/-- Family A start-anchor MJD (source lines 213-218): the first whitespace
token of the line four below the `CELESTIAL POLE OFFSET SERIES:` header
(falling back to `COMBINED EARTH ORIENTATION PARAMETERS:`), as an
integer. -/
def startMjdA (lines : List (List Char)) : Option Nat :=
  match
    (match lines.findIdx? (fun l => l == "CELESTIAL POLE OFFSET SERIES:".toList) with
     | some i => some i
     | none =>
       lines.findIdx? (fun l => l == "COMBINED EARTH ORIENTATION PARAMETERS:".toList)) with
  | none => none
  | some i =>
    match lines.get? (i + 4) with
    | none => none
    | some l =>
      match (splitWs l).head? with
      | none => none
      | some tok => parseIntTok tok

/-- Family A validity start: the document's MJD converted to a date. -/
def startDateA (lines : List (List Char)) : Option Date :=
  match startMjdA lines with
  | none => none
  | some mjd => mjd_to_datetime mjd

/-- Family A last-entry date (source lines 220-222): the first three
tokens of the line before the leap-second sentence (Python's `idx - 1`
wraps to the last line when `idx = 0`). -/
def stopAnchorDateA (lines : List (List Char)) : Option Date :=
  match lines.findIdx?
      (fun l =>
        l == "These predictions are based on all announced leap seconds.".toList) with
  | none => none
  | some i =>
    match pyGetI lines ((i : Int) - 1) with
    | none => none
    | some l =>
      match first3Nats l with
      | none => none
      | some ymd => mkDate ymd.1 ymd.2.1 ymd.2.2

/-- The `IERSBulletinA._analyze_txt` (source lines 207-222): creation date,
validity start from the MJD, and validity stop = last-entry date plus one
day. -/
def analyzeTxtA (lines : List (List Char)) : Option (Date × Date × Date) :=
  match creationDateA lines with
  | none => none
  | some c =>
    match startDateA lines with
    | none => none
    | some s =>
      match stopAnchorDateA lines with
      | none => none
      | some z =>
        match addOneDayO z with
        | none => none
        | some z1 => some (c, s, z1)

/-- The `IERSBulletinA.analyze` on a `.txt` path with `filename_only=False`. -/
def analyzeTxtFullA (inpath : List Char) (raw : List (List Char)) :
    Option BulletinProps :=
  if endsWithLit ".txt".toList inpath then
    match analyzeNameOnly .A inpath with
    | none => none
    | some base =>
      match analyzeTxtA (cleanLines raw) with
      | none => none
      | some csz =>
        some { base with creation_date := some csz.1,
                         validity_start := some csz.2.1,
                         validity_stop := some csz.2.2 }
  else none

/-- Family D creation date (source lines 317-323): the last comma field of
the first line containing `"Paris,"`, or — when no such line exists — the
part after the last `"le"` of the first line containing `"Paris le "`. -/
def creationDateD (lines : List (List Char)) : Option Date :=
  match (lines.filter (fun l => containsSub "Paris,".toList l)).head? with
  | some line =>
    match (splitChar ',' line).getLast? with
    | none => none
    | some tok => parse_text_date false (trimL tok)
  | none =>
    match (lines.filter (fun l => containsSub "Paris le ".toList l)).head? with
    | none => none
    | some line =>
      match (splitLit "le".toList line).getLast? with
      | none => none
      | some tok => parse_text_date false (trimL tok)

/-- Family D validity start (source lines 324-330): the first comma field
of the line after an exact `"From the"` line, or — when `lines.index`
raises — of the tail (from character 9) of the first line starting with
`"From the "`. -/
def startDateD (lines : List (List Char)) : Option Date :=
  match lines.findIdx? (fun l => l == "From the".toList) with
  | some i =>
    match lines.get? (i + 1) with
    | none => none
    | some l =>
      match (splitChar ',' l).head? with
      | none => none
      | some piece => parse_text_date false piece
  | none =>
    match (lines.filter (fun l => startsWithLit "From the ".toList l)).head? with
    | none => none
    | some line =>
      match (splitChar ',' (line.drop 9)).head? with
      | none => none
      | some piece => parse_text_date false piece

/-- The `IERSBulletinD._analyze_txt` (source lines 316-330). -/
def analyzeTxtD (lines : List (List Char)) : Option (Date × Date) :=
  match creationDateD lines with
  | none => none
  | some c =>
    match startDateD lines with
    | none => none
    | some s => some (c, s)

/-- The `IERSBulletinD.analyze` on a `.txt` path with `filename_only=False`. -/
def analyzeTxtFullD (inpath : List Char) (raw : List (List Char)) :
    Option BulletinProps :=
  if endsWithLit ".txt".toList inpath then
    match analyzeNameOnly .D inpath with
    | none => none
    | some base =>
      match analyzeTxtD (cleanLines raw) with
      | none => none
      | some cs =>
        some { base with creation_date := some cs.1, validity_start := some cs.2 }
  else none

/-! ## XML extractors for the four families -/

/-- Creation date of the A/B XML layout: `version/date` parsed with
`strptime "%Y-%m-%d"` (source lines 225 and 272). -/
def creationXmlAB (root : Xml) : Option Date :=
  match findPath [nsTag "version", nsTag "date"] root with
  | none => none
  | some de =>
    match xmlText de with
    | none => none
    | some txt => strptimeYmd txt

/-- Validity start of the A/B XML layout: the first
`data/timeSeries/time` element (source lines 226-227 and 273-274). -/
def startXmlAB (root : Xml) : Option Date :=
  match (findallPath [nsTag "data", nsTag "timeSeries", nsTag "time"] root).head? with
  | none => none
  | some t0 => parse_xml_time t0

/-- Last-entry date of the A/B XML layout: the last
`data/timeSeries/time` element (source lines 228 and 275). -/
def stopAnchorXmlAB (root : Xml) : Option Date :=
  match (findallPath [nsTag "data", nsTag "timeSeries", nsTag "time"] root).getLast? with
  | none => none
  | some tn => parse_xml_time tn

/-- The `IERSBulletinA._analyze_xml` and `IERSBulletinB._analyze_xml`
(source lines 224-229 and 271-276, textually identical): the stop date
is shifted one day past the last entry. -/
def analyzeXmlAB (root : Xml) : Option (Date × Date × Date) :=
  match creationXmlAB root with
  | none => none
  | some c =>
    match startXmlAB root with
    | none => none
    | some s =>
      match stopAnchorXmlAB root with
      | none => none
      | some z =>
        match addOneDayO z with
        | none => none
        | some z1 => some (c, s, z1)

/-- Creation date of the C/D XML layout: `data/date` (source lines 298
and 333). -/
def creationXmlCD (root : Xml) : Option Date :=
  match findPath [nsTag "data", nsTag "date"] root with
  | none => none
  | some de =>
    match xmlText de with
    | none => none
    | some txt => strptimeYmd txt

/-- Validity start of the C XML layout: `data/UT/startDate` (source
lines 299-300). -/
def startXmlC (root : Xml) : Option Date :=
  match findPath [nsTag "data", nsTag "UT", nsTag "startDate"] root with
  | none => none
  | some se =>
    match xmlText se with
    | none => none
    | some txt => strptimeYmd txt

/-- Validity start of the D XML layout: `data/startDate` (source lines
334-335). -/
def startXmlD (root : Xml) : Option Date :=
  match findPath [nsTag "data", nsTag "startDate"] root with
  | none => none
  | some se =>
    match xmlText se with
    | none => none
    | some txt => strptimeYmd txt

/-- The `IERSBulletinC._analyze_xml` (source lines 297-300). -/
def analyzeXmlC (root : Xml) : Option (Date × Date) :=
  match creationXmlCD root with
  | none => none
  | some c =>
    match startXmlC root with
    | none => none
    | some s => some (c, s)

/-- The `IERSBulletinD._analyze_xml` (source lines 332-335). -/
def analyzeXmlD (root : Xml) : Option (Date × Date) :=
  match creationXmlCD root with
  | none => none
  | some c =>
    match startXmlD root with
    | none => none
    | some s => some (c, s)

/-- The `IERSBulletinA.analyze` on an `.xml` path with `filename_only=False`. -/
def analyzeXmlFullA (inpath : List Char) (root : Xml) : Option BulletinProps :=
  if endsWithLit ".xml".toList inpath then
    match analyzeNameOnly .A inpath with
    | none => none
    | some base =>
      match analyzeXmlAB root with
      | none => none
      | some csz =>
        some { base with creation_date := some csz.1,
                         validity_start := some csz.2.1,
                         validity_stop := some csz.2.2 }
  else none

/-- The `IERSBulletinB.analyze` on an `.xml` path with `filename_only=False`. -/
def analyzeXmlFullB (inpath : List Char) (root : Xml) : Option BulletinProps :=
  if endsWithLit ".xml".toList inpath then
    match analyzeNameOnly .B inpath with
    | none => none
    | some base =>
      match analyzeXmlAB root with
      | none => none
      | some csz =>
        some { base with creation_date := some csz.1,
                         validity_start := some csz.2.1,
                         validity_stop := some csz.2.2 }
  else none

/-- The `IERSBulletinC.analyze` on an `.xml` path with `filename_only=False`. -/
def analyzeXmlFullC (inpath : List Char) (root : Xml) : Option BulletinProps :=
  if endsWithLit ".xml".toList inpath then
    match analyzeNameOnly .C inpath with
    | none => none
    | some base =>
      match analyzeXmlC root with
      | none => none
      | some cs =>
        some { base with creation_date := some cs.1, validity_start := some cs.2 }
  else none

/-- The `IERSBulletinD.analyze` on an `.xml` path with `filename_only=False`. -/
def analyzeXmlFullD (inpath : List Char) (root : Xml) : Option BulletinProps :=
  if endsWithLit ".xml".toList inpath then
    match analyzeNameOnly .D inpath with
    | none => none
    | some base =>
      match analyzeXmlD root with
      | none => none
      | some cs =>
        some { base with creation_date := some cs.1, validity_start := some cs.2 }
  else none

/-! ## Concrete sample documents (used to exercise the parsers) -/

/-- A minimal family A text document. -/
def sampleTxtA : List (List Char) :=
  ["* IERS".toList, "1 january 2000".toList,
   "CELESTIAL POLE OFFSET SERIES:".toList, "a".toList, "b".toList, "c".toList,
   "51548".toList, "2000 2 1 x".toList,
   "These predictions are based on all announced leap seconds.".toList]

/-- A minimal family B text document. -/
def sampleTxtB : List (List Char) :=
  ["IERS".toList, "1 january 2024".toList, "Final values".toList,
   "filler".toList, "2024 1 5 x".toList, "2024 2 1 y".toList,
   "CELESTIAL POLE OFFSETS".toList]

/-- A minimal family C text document with ordered anchor dates. -/
def sampleTxtC : List (List Char) :=
  ["IERS".toList, "Paris, 1 january 2020".toList,
   "from 2024 january 1, blah".toList]

/-- A minimal family D text document. -/
def sampleTxtD : List (List Char) :=
  ["Paris, 1 january 2024".toList, "From the".toList,
   "2 january 2024, x".toList]

/-- A `time` element of the A/B XML layout. -/
def sampleXmlTime (y m d : String) : Xml :=
  .node (nsTag "time") none
    [.node (nsTag "dateYear") (some y.toList) [],
     .node (nsTag "dateMonth") (some m.toList) [],
     .node (nsTag "dateDay") (some d.toList) []]

/-- A minimal XML document in the A/B layout. -/
def sampleXmlAB : Xml :=
  .node "root".toList none
    [.node (nsTag "version") none
       [.node (nsTag "date") (some "2024-01-01".toList) []],
     .node (nsTag "data") none
       [.node (nsTag "timeSeries") none
          [sampleXmlTime "2024" "1" "5", sampleXmlTime "2024" "2" "1"]]]

/-- A minimal XML document in the C layout. -/
def sampleXmlC : Xml :=
  .node "root".toList none
    [.node (nsTag "data") none
       [.node (nsTag "date") (some "2024-01-01".toList) [],
        .node (nsTag "UT") none
          [.node (nsTag "startDate") (some "2024-01-05".toList) []]]]

/-- A minimal XML document in the D layout. -/
def sampleXmlD : Xml :=
  .node "root".toList none
    [.node (nsTag "data") none
       [.node (nsTag "date") (some "2024-01-01".toList) [],
        .node (nsTag "startDate") (some "2024-01-05".toList) []]]

/-! ## Generic lemmas about the string primitives -/

theorem dropLit_append (p r : List Char) : dropLit p (p ++ r) = some r := by
  induction p with
  | nil => rfl
  | cons c cs ih => simp [dropLit, ih]

theorem dropLit_eq_some : ∀ p s r : List Char, dropLit p s = some r → s = p ++ r := by
  intro p
  induction p with
  | nil => intro s r h; simp [dropLit] at h; simp [h]
  | cons c cs ih =>
    intro s r h
    cases s with
    | nil => simp [dropLit] at h
    | cons d ds =>
      by_cases hcd : c = d
      · subst hcd
        simp [dropLit] at h
        simpa using ih ds r h
      · simp [dropLit, hcd] at h

theorem takeCount_append : ∀ (n : Nat) (f : Char → Bool) (t r : List Char),
    t.length = n → t.all f = true → takeCount n f (t ++ r) = some (t, r) := by
  intro n f t
  induction t generalizing n with
  | nil => intro r hl _; subst hl; rfl
  | cons c cs ih =>
    intro r hl ha
    subst hl
    simp only [List.all_cons, Bool.and_eq_true] at ha
    simp [takeCount, ha.1, ih cs.length r rfl ha.2]

theorem takeCount_eq_some : ∀ (n : Nat) (f : Char → Bool) (s t r : List Char),
    takeCount n f s = some (t, r) → s = t ++ r ∧ t.length = n ∧ t.all f = true := by
  intro n
  induction n with
  | zero =>
    intro f s t r h
    simp [takeCount] at h
    obtain ⟨h1, h2⟩ := h
    subst h1; subst h2
    simp
  | succ m ih =>
    intro f s t r h
    cases s with
    | nil => simp [takeCount] at h
    | cons c cs =>
      by_cases hc : f c = true
      · unfold takeCount at h
        rw [if_pos hc] at h
        cases htc : takeCount m f cs with
        | none => rw [htc] at h; exact Option.noConfusion h
        | some pr =>
          rw [htc] at h
          have h2 : (c :: pr.1, pr.2) = (t, r) := Option.some.inj h
          obtain ⟨hs, hl, ha⟩ := ih f cs pr.1 pr.2 (by rw [htc])
          have ht : c :: pr.1 = t := congrArg Prod.fst h2
          have hr : pr.2 = r := congrArg Prod.snd h2
          subst ht; subst hr
          simp [hs, hl, hc, ha]
      · simp only [Bool.not_eq_true] at hc
        simp [takeCount, hc] at h

theorem takeWhile_append_of_all (f : Char → Bool) :
    ∀ (t r : List Char), t.all f = true →
    (∀ c rs, r = c :: rs → f c = false) →
    (t ++ r).takeWhile f = t ∧ (t ++ r).dropWhile f = r := by
  intro t
  induction t with
  | nil =>
    intro r _ hr
    cases r with
    | nil => simp
    | cons c rs => simp [List.takeWhile, List.dropWhile, hr c rs rfl]
  | cons c cs ih =>
    intro r ha hr
    simp only [List.all_cons, Bool.and_eq_true] at ha
    have := ih r ha.2 hr
    simp [List.takeWhile, List.dropWhile, ha.1, this.1, this.2]

theorem takeWhile_eq_self_of_all (f : Char → Bool) :
    ∀ (l : List Char), l.all f = true → l.takeWhile f = l := by
  intro l
  induction l with
  | nil => intro; rfl
  | cons c cs ih =>
    intro ha
    simp only [List.all_cons, Bool.and_eq_true] at ha
    simp [List.takeWhile, ha.1, ih ha.2]

theorem basename_of_no_slash (s : List Char) (h : s.all (fun c => c != '/') = true) :
    basename s = s := by
  unfold basename
  rw [takeWhile_eq_self_of_all _ _ (by simpa using h), List.reverse_reverse]

theorem reChars_lit : ∀ (pat rest u : List Char), pat.all (fun c => c != '.') = true →
    (reChars pat rest = some u ↔ rest = pat ++ u) := by
  intro pat
  induction pat with
  | nil =>
    intro rest u _
    simp [reChars, eq_comm]
  | cons p ps ih =>
    intro rest u hall
    simp only [List.all_cons, Bool.and_eq_true, bne_iff_ne, ne_eq] at hall
    cases rest with
    | nil => simp [reChars]
    | cons c s =>
      by_cases hpc : p = c
      · subst hpc
        have hcond : ((p == p) || ((p == '.') && (p != '\n'))) = true := by
          simp
        simp only [reChars, hcond, if_pos, List.cons_append, List.cons.injEq,
          true_and]
        exact ih s u (by simpa [List.all_eq_true, bne_iff_ne] using hall.2)
      · have hp1 : (p == c) = false := by simpa using hpc
        have hp2 : (p == '.') = false := by simpa using hall.1
        simp [reChars, hp1, hp2, Ne.symm hpc]

theorem reChars_wild (tail rest u : List Char) :
    reChars ('.' :: tail) rest = some u ↔
      ∃ c rs, rest = c :: rs ∧ (c != '\n') = true ∧ reChars tail rs = some u := by
  cases rest with
  | nil => simp [reChars]
  | cons c rs =>
    have hcond : (('.' == c) || (('.' == '.') && (c != '\n'))) = (c != '\n') := by
      by_cases hc : c = '.'
      · subst hc; decide
      · have h1 : ('.' == c) = false := by simpa using Ne.symm hc
        simp [h1]
    constructor
    · intro h
      by_cases hn : (c != '\n') = true
      · refine ⟨c, rs, rfl, hn, ?_⟩
        simpa [reChars, hcond, hn] using h
      · have hf : (c != '\n') = false := by
          cases hx : (c != '\n') with
          | false => rfl
          | true => exact absurd hx hn
        rw [show reChars ('.' :: tail) (c :: rs)
            = (if (('.' == c) || (('.' == '.') && (c != '\n'))) = true
               then reChars tail rs else none) from rfl, hcond, hf] at h
        simp at h
    · rintro ⟨c', rs', heq, hn, h⟩
      obtain ⟨h1, h2⟩ := List.cons.inj heq
      subst h1; subst h2
      simpa [reChars, hcond, hn] using h

/-! ## Finite-domain facts established by evaluation -/

set_option maxHeartbeats 4000000 in
set_option maxRecDepth 60000 in
theorem roman_rt_chunk0 : ∀ n : Nat, n < 1000 → fromRoman (toRoman n) = n := by
  decide

set_option maxHeartbeats 4000000 in
set_option maxRecDepth 60000 in
theorem roman_rt_chunk1 : ∀ n : Nat, n < 1000 → fromRoman (toRoman (1000 + n)) = 1000 + n := by
  decide

set_option maxHeartbeats 4000000 in
set_option maxRecDepth 60000 in
theorem roman_rt_chunk2 : ∀ n : Nat, n < 1000 → fromRoman (toRoman (2000 + n)) = 2000 + n := by
  decide

set_option maxHeartbeats 4000000 in
set_option maxRecDepth 60000 in
theorem roman_rt_chunk3 : ∀ n : Nat, n < 1000 → fromRoman (toRoman (3000 + n)) = 3000 + n := by
  decide

/-- Round-trip of the Roman numeral codec on the classical range. -/
theorem roman_roundtrip (n : Nat) (h1 : 1 ≤ n) (h2 : n ≤ 3999) :
    fromRoman (toRoman n) = n := by
  by_cases c0 : n < 1000
  · exact roman_rt_chunk0 n c0
  · by_cases c1 : n < 2000
    · have e : 1000 + (n - 1000) = n := by omega
      have := roman_rt_chunk1 (n - 1000) (by omega)
      rw [e] at this; exact this
    · by_cases c2 : n < 3000
      · have e : 2000 + (n - 2000) = n := by omega
        have := roman_rt_chunk2 (n - 2000) (by omega)
        rw [e] at this; exact this
      · have e : 3000 + (n - 3000) = n := by omega
        have := roman_rt_chunk3 (n - 3000) (by omega)
        rw [e] at this; exact this

set_option maxHeartbeats 1000000 in
set_option maxRecDepth 60000 in
/-- The Python 03-width formatting facts for 3-digit-representable numbers: exactly three
ASCII digits, and `int` recovers `n`. -/
theorem pad3_facts : ∀ n : Nat, n < 1000 →
    (pad3 n).length = 3 ∧ (pad3 n).all Char.isDigit = true ∧ digitsToNat (pad3 n) = n := by
  decide

set_option maxRecDepth 8000 in
/-- For volumes up to 39 (the largest value whose Roman numeral uses only
`X`, `V`, `I`), the lower-cased numeral is a nonempty `[xvi]+` run and
`fromRoman` recovers the volume from it. -/
theorem roman_lower_facts : ∀ v : Nat, v < 40 → 1 ≤ v →
    ((toRoman v).map Char.toLower).all isRomanCh = true ∧
    ((toRoman v).map Char.toLower).isEmpty = false ∧
    fromRoman ((toRoman v).map Char.toLower) = v := by
  decide

/-- ASCII digits are not `/` or `.` or `-`. -/
theorem digit_not_special (c : Char) (h : Char.isDigit c = true) :
    (c != '/') = true ∧ (c != '.') = true ∧ (c != '-') = true := by
  have h0 : '0' ≤ c ∧ c ≤ '9' := by
    simpa [Char.isDigit, decide_eq_true_eq] using h
  have hne : c ≠ '/' ∧ c ≠ '.' ∧ c ≠ '-' := by
    obtain ⟨hl, hr⟩ := h0
    refine ⟨?_, ?_, ?_⟩ <;> · rintro rfl; revert hl hr; decide
  simpa [bne_iff_ne] using hne

/-- Characters of the `[xvi]` class are not `/` or `-`. -/
theorem roman_ch_not_special (c : Char) (h : isRomanCh c = true) :
    (c != '/') = true ∧ (c != '-') = true := by
  simp only [isRomanCh, Bool.or_eq_true, beq_iff_eq] at h
  rcases h with (h | h) | h <;> · subst h; decide

/-! ## Filename grammar: soundness and completeness of the pattern match -/

/-- Completeness for families B, C, D: the pattern accepts
`head ++ digits ++ rest` and captures the digits. -/
theorem parse_rest_bcd (f : Fam) (hf : f ≠ .A) (num rest : List Char)
    (h3 : num.length = 3) (hd : num.all Char.isDigit = true) :
    parse_filename_rest f (famLit f ++ (num ++ rest)) = some ((none, num), rest) := by
  cases f with
  | A => exact absurd rfl hf
  | B => simp [parse_filename_rest, dropLit_append, takeCount_append 3 Char.isDigit num rest h3 hd]
  | C => simp [parse_filename_rest, dropLit_append, takeCount_append 3 Char.isDigit num rest h3 hd]
  | D => simp [parse_filename_rest, dropLit_append, takeCount_append 3 Char.isDigit num rest h3 hd]

/-- Soundness for families B, C, D: a successful match decomposes the
input as `head ++ digits ++ rest`. -/
theorem parse_rest_bcd_inv (f : Fam) (hf : f ≠ .A) (s : List Char)
    (v : Option (List Char)) (num rest : List Char)
    (h : parse_filename_rest f s = some ((v, num), rest)) :
    v = none ∧ s = famLit f ++ (num ++ rest) ∧ num.length = 3 ∧
      num.all Char.isDigit = true := by
  have main : ∀ g : Fam, g ≠ .A →
      (match dropLit (famLit g) s with
        | none => none
        | some s1 =>
          match takeCount 3 Char.isDigit s1 with
          | none => none
          | some (n, r) => some (((none : Option (List Char)), n), r))
        = some ((v, num), rest) →
      v = none ∧ s = famLit g ++ (num ++ rest) ∧ num.length = 3 ∧
        num.all Char.isDigit = true := by
    intro g hg hm
    split at hm
    · exact Option.noConfusion hm
    · rename_i s1 hdl
      split at hm
      · exact Option.noConfusion hm
      · rename_i n r htc
        have h2 := Option.some.inj hm
        have hvn : (none : Option (List Char)) = v := congrArg (fun x => x.1.1) h2
        have hnum : n = num := congrArg (fun x => x.1.2) h2
        have hrest : r = rest := congrArg (fun x => x.2) h2
        obtain ⟨hs1, hlen, hall⟩ := takeCount_eq_some 3 Char.isDigit s1 n r htc
        refine ⟨hvn.symm, ?_, ?_, ?_⟩
        · rw [dropLit_eq_some _ _ _ hdl, hs1, hnum, hrest]
        · rw [← hnum]; exact hlen
        · rw [← hnum]; exact hall
  cases f with
  | A => exact absurd rfl hf
  | B => exact main .B hf (by simpa [parse_filename_rest] using h)
  | C => exact main .C hf (by simpa [parse_filename_rest] using h)
  | D => exact main .D hf (by simpa [parse_filename_rest] using h)

/-- Completeness for family A: the pattern accepts
`bulletina- ++ roman-run ++ - ++ digits ++ rest`. -/
theorem parse_rest_A (rom num rest : List Char) (hne : rom.isEmpty = false)
    (hra : rom.all isRomanCh = true) (h3 : num.length = 3)
    (hd : num.all Char.isDigit = true) :
    parse_filename_rest .A (famLit .A ++ (rom ++ '-' :: (num ++ rest)))
      = some ((some rom, num), rest) := by
  have hsplit := takeWhile_append_of_all isRomanCh rom ('-' :: (num ++ rest)) hra
    (by rintro c rs heq; obtain ⟨h1, _⟩ := List.cons.inj heq; subst h1; rfl)
  simp [parse_filename_rest, dropLit_append, hsplit.1, hsplit.2, hne,
    takeCount_append 3 Char.isDigit num rest h3 hd]

/-- Soundness for family A. -/
theorem parse_rest_A_inv (s : List Char) (v : Option (List Char))
    (num rest : List Char)
    (h : parse_filename_rest .A s = some ((v, num), rest)) :
    ∃ rom, v = some rom ∧ s = famLit .A ++ (rom ++ '-' :: (num ++ rest)) ∧
      rom.isEmpty = false ∧ rom.all isRomanCh = true ∧ num.length = 3 ∧
      num.all Char.isDigit = true := by
  simp only [parse_filename_rest] at h
  split at h
  · exact Option.noConfusion h
  · rename_i s1 hdl
    split at h
    · exact Option.noConfusion h
    · rename_i hvol
      split at h
      · rename_i s3 hdw
        split at h
        · exact Option.noConfusion h
        · rename_i n r htc
          have h2 := Option.some.inj h
          have hv : some (s1.takeWhile isRomanCh) = v := congrArg (fun x => x.1.1) h2
          have hnum : n = num := congrArg (fun x => x.1.2) h2
          have hrest : r = rest := congrArg (fun x => x.2) h2
          obtain ⟨hds, hlen, hall⟩ := takeCount_eq_some 3 Char.isDigit s3 n r htc
          have key : s1 = s1.takeWhile isRomanCh ++ '-' :: (num ++ rest) := by
            calc s1 = s1.takeWhile isRomanCh ++ s1.dropWhile isRomanCh :=
                  (List.takeWhile_append_dropWhile ..).symm
              _ = s1.takeWhile isRomanCh ++ '-' :: (num ++ rest) := by
                  rw [hdw, hds, hnum, hrest]
          refine ⟨s1.takeWhile isRomanCh, hv.symm, ?_,
            by simpa using hvol, List.all_takeWhile .., ?_, ?_⟩
          · rw [dropLit_eq_some _ _ _ hdl, ← key]
          · rw [← hnum]; exact hlen
          · rw [← hnum]; exact hall
      · exact Option.noConfusion h

/-! ## Shape of the generated physical names -/

theorem pnameA_eq (fmt : List Char) (v n : Nat) :
    physical_name_for_index .A fmt (v, n)
      = famLit .A ++ ((toRoman v).map Char.toLower ++ '-' :: (pad3 n ++ '.' :: fmt)) := by
  have hL : famLit .A = "bulletina".toList ++ ['-'] := rfl
  show List.intercalate ['-']
      ["bulletina".toList, (toRoman v).map Char.toLower, pad3 n] ++ '.' :: fmt = _
  rw [hL]
  simp [List.intercalate, List.intersperse]

theorem pnameB_eq (fmt : List Char) (n : Nat) :
    physical_name_for_index .B fmt n = famLit .B ++ (pad3 n ++ '.' :: fmt) := by
  have hL : famLit .B = "bulletinb".toList ++ ['-'] := rfl
  show List.intercalate ['-'] ["bulletinb".toList, pad3 n] ++ '.' :: fmt = _
  rw [hL]
  simp [List.intercalate, List.intersperse]

theorem pnameC_eq (fmt : List Char) (n : Nat) :
    physical_name_for_index .C fmt n = famLit .C ++ (pad3 n ++ '.' :: fmt) := by
  have hL : famLit .C = "bulletinc".toList ++ ['-'] := rfl
  show List.intercalate ['-'] ["bulletinc".toList, pad3 n] ++ '.' :: fmt = _
  rw [hL]
  simp [List.intercalate, List.intersperse]

theorem pnameD_eq (fmt : List Char) (n : Nat) :
    physical_name_for_index .D fmt n = famLit .D ++ (pad3 n ++ '.' :: fmt) := by
  have hL : famLit .D = "bulletind".toList ++ ['-'] := rfl
  show List.intercalate ['-'] ["bulletind".toList, pad3 n] ++ '.' :: fmt = _
  rw [hL]
  simp [List.intercalate, List.intersperse]

/-- Digit strings contain no `/`. -/
theorem all_ne_slash_of_digits (l : List Char) (h : l.all Char.isDigit = true) :
    l.all (fun c => c != '/') = true := by
  simp only [List.all_eq_true] at h ⊢
  intro c hc
  exact (digit_not_special c (h c hc)).1

/-- The `[xvi]` runs contain no `/`. -/
theorem all_ne_slash_of_roman (l : List Char) (h : l.all isRomanCh = true) :
    l.all (fun c => c != '/') = true := by
  simp only [List.all_eq_true] at h ⊢
  intro c hc
  exact (roman_ch_not_special c (h c hc)).1

/-- The accepted encodings contain no `/`. -/
theorem enc_no_slash (enc : List Char)
    (henc : enc = "txt".toList ∨ enc = "xml".toList) :
    enc.all (fun c => c != '/') = true := by
  rcases henc with h | h <;> · subst h; decide

/-! ## Single-step behavior of the synchronizer loop -/

theorem syncLoop_found (f : Fam) (fmt : List Char) (probe : List Char → Nat)
    (fuel : Nat) (idx : Idx f) (acc : List (List Char))
    (h200 : probe (physical_name_for_index f fmt idx) = 200)
    (ha : (analyzeNameOnly f (physical_name_for_index f fmt idx)).isSome = true) :
    syncLoop f fmt probe (fuel + 1) idx acc
      = syncLoop f fmt probe fuel (next_index f idx)
          (acc ++ [physical_name_for_index f fmt idx]) := by
  obtain ⟨p, hp⟩ := Option.isSome_iff_exists.mp ha
  simp [syncLoop, h200, hp]

theorem syncLoop_skip (f : Fam) (fmt : List Char) (probe : List Char → Nat)
    (fuel : Nat) (idx : Idx f) (acc : List (List Char))
    (h404 : probe (physical_name_for_index f fmt idx) = 404)
    (hskip : pyTruthy (can_skip_index f idx) = true) :
    syncLoop f fmt probe (fuel + 1) idx acc
      = syncLoop f fmt probe fuel (next_index f idx) acc := by
  simp [syncLoop, h404, hskip]

theorem syncLoop_stop (f : Fam) (fmt : List Char) (probe : List Char → Nat)
    (fuel : Nat) (idx : Idx f) (acc : List (List Char))
    (h404 : probe (physical_name_for_index f fmt idx) = 404)
    (hskip : pyTruthy (can_skip_index f idx) = false) :
    syncLoop f fmt probe (fuel + 1) idx acc = some (.done, acc) := by
  simp [syncLoop, h404, hskip]

theorem syncLoop_fatal (f : Fam) (fmt : List Char) (probe : List Char → Nat)
    (fuel : Nat) (idx : Idx f) (acc : List (List Char)) (st : Nat)
    (hst : probe (physical_name_for_index f fmt idx) = st)
    (h1 : 400 ≤ st) (h2 : st < 600) (h3 : st ≠ 404) :
    syncLoop f fmt probe (fuel + 1) idx acc = some (.fatal, acc) := by
  have h200 : st ≠ 200 := by omega
  simp [syncLoop, hst, h200, h3, h1, h2]

theorem syncLoop_other (f : Fam) (fmt : List Char) (probe : List Char → Nat)
    (fuel : Nat) (idx : Idx f) (acc : List (List Char)) (st : Nat)
    (hst : probe (physical_name_for_index f fmt idx) = st)
    (h200 : st ≠ 200) (h404 : st ≠ 404) (hrange : ¬(400 ≤ st ∧ st < 600)) :
    syncLoop f fmt probe (fuel + 1) idx acc
      = syncLoop f fmt probe fuel (next_index f idx) acc := by
  simp [syncLoop, hst, h200, h404, hrange]

theorem syncAll_cons_fatal (fmt : List Char) (probe : List Char → Nat)
    (startIdx : (f : Fam) → Idx f) (fuel : Nat) (f : Fam) (fs : List Fam)
    (acc acc2 : List (List Char))
    (h : syncLoop f fmt probe fuel (startIdx f) acc = some (.fatal, acc2)) :
    syncAll fmt probe startIdx fuel (f :: fs) acc = some (.fatal, acc2) := by
  simp [syncAll, h]

/-! ## Claims -/

/-- Claim **C3**: for every family, every accepted encoding and every valid index
(one representable in the family's filename grammar), deriving the index
back from the formatted physical name recovers the index. -/
theorem claim_C3_filename_roundtrip (f : Fam) (enc : List Char)
    (henc : enc = "txt".toList ∨ enc = "xml".toList)
    (idx : Idx f) (hval : validIndex f idx) :
    index_for_physical_name f (physical_name_for_index f enc idx) = some idx := by
  cases f with
  | A =>
    obtain ⟨v, n⟩ := idx
    obtain ⟨h1, h2, h3⟩ := hval
    have hrom := roman_lower_facts v (by omega) h1
    have hpad := pad3_facts n (by omega)
    have hname := pnameA_eq enc v n
    have hnoslash : (physical_name_for_index .A enc (v, n)).all (fun c => c != '/') = true := by
      rw [hname]
      simp +decide [List.all_append, all_ne_slash_of_roman _ hrom.1,
        all_ne_slash_of_digits _ hpad.2.1, enc_no_slash enc henc]
    have hparse : parse_filename .A (physical_name_for_index .A enc (v, n))
        = some (some ((toRoman v).map Char.toLower), pad3 n) := by
      unfold parse_filename
      rw [basename_of_no_slash _ hnoslash, hname,
        parse_rest_A ((toRoman v).map Char.toLower) (pad3 n) ('.' :: enc)
          hrom.2.1 hrom.1 hpad.1 hpad.2.1]
      rfl
    unfold index_for_physical_name
    rw [hparse]
    simp [hrom.2.2, hpad.2.2]
  | B =>
    obtain ⟨k, rfl⟩ : ∃ m : Nat, m = idx := ⟨idx, rfl⟩
    have hn : k ≤ 999 := hval
    have hpad := pad3_facts k (by omega)
    have hname := pnameB_eq enc k
    have hnoslash : (physical_name_for_index .B enc k).all (fun c => c != '/') = true := by
      rw [hname]
      simp +decide [List.all_append, all_ne_slash_of_digits _ hpad.2.1, enc_no_slash enc henc]
    have hparse : parse_filename .B (physical_name_for_index .B enc k)
        = some (none, pad3 k) := by
      unfold parse_filename
      rw [basename_of_no_slash _ hnoslash, hname,
        parse_rest_bcd .B (by decide) (pad3 k) ('.' :: enc) hpad.1 hpad.2.1]
      rfl
    unfold index_for_physical_name
    rw [hparse]
    simp [hpad.2.2]
  | C =>
    obtain ⟨k, rfl⟩ : ∃ m : Nat, m = idx := ⟨idx, rfl⟩
    have hn : k ≤ 999 := hval
    have hpad := pad3_facts k (by omega)
    have hname := pnameC_eq enc k
    have hnoslash : (physical_name_for_index .C enc k).all (fun c => c != '/') = true := by
      rw [hname]
      simp +decide [List.all_append, all_ne_slash_of_digits _ hpad.2.1, enc_no_slash enc henc]
    have hparse : parse_filename .C (physical_name_for_index .C enc k)
        = some (none, pad3 k) := by
      unfold parse_filename
      rw [basename_of_no_slash _ hnoslash, hname,
        parse_rest_bcd .C (by decide) (pad3 k) ('.' :: enc) hpad.1 hpad.2.1]
      rfl
    unfold index_for_physical_name
    rw [hparse]
    simp [hpad.2.2]
  | D =>
    obtain ⟨k, rfl⟩ : ∃ m : Nat, m = idx := ⟨idx, rfl⟩
    have hn : k ≤ 999 := hval
    have hpad := pad3_facts k (by omega)
    have hname := pnameD_eq enc k
    have hnoslash : (physical_name_for_index .D enc k).all (fun c => c != '/') = true := by
      rw [hname]
      simp +decide [List.all_append, all_ne_slash_of_digits _ hpad.2.1, enc_no_slash enc henc]
    have hparse : parse_filename .D (physical_name_for_index .D enc k)
        = some (none, pad3 k) := by
      unfold parse_filename
      rw [basename_of_no_slash _ hnoslash, hname,
        parse_rest_bcd .D (by decide) (pad3 k) ('.' :: enc) hpad.1 hpad.2.1]
      rfl
    unfold index_for_physical_name
    rw [hparse]
    simp [hpad.2.2]

/-- Witness for C3 at family A, encoding `txt`, index (18, 5). -/
theorem claim_C3_witness :
    index_for_physical_name .A (physical_name_for_index .A "txt".toList ((18, 5) : Idx .A))
      = some (18, 5) :=
  claim_C3_filename_roundtrip .A "txt".toList (Or.inl rfl) ((18, 5) : Idx .A)
    (by exact ⟨by omega, by omega, by omega⟩)

/-- Claim **C7**: the Roman numeral round-trip law on [1, 3999]. -/
theorem claim_C7_roman_roundtrip (n : Nat) (h1 : 1 ≤ n) (h2 : n ≤ 3999) :
    fromRoman (toRoman n) = n :=
  roman_roundtrip n h1 h2

/-- Witness for C7 at 1994. -/
theorem claim_C7_witness : fromRoman (toRoman 1994) = 1994 :=
  claim_C7_roman_roundtrip 1994 (by omega) (by omega)

/-- Claim **C1**: family B walk from index 253 with 200 responses for 253-255 and
a 404 (not a known gap) for 256 creates exactly the records 253, 254, 255
in increasing order and terminates without a record for 256. -/
theorem claim_C1_family_B_scenario (probe : List Char → Nat) (m : Nat)
    (h253 : probe (physical_name_for_index .B "txt".toList (253 : Idx .B)) = 200)
    (h254 : probe (physical_name_for_index .B "txt".toList (254 : Idx .B)) = 200)
    (h255 : probe (physical_name_for_index .B "txt".toList (255 : Idx .B)) = 200)
    (h256 : probe (physical_name_for_index .B "txt".toList (256 : Idx .B)) = 404) :
    syncLoop .B "txt".toList probe (m + 4) (253 : Idx .B) []
      = some (.done,
          [physical_name_for_index .B "txt".toList (253 : Idx .B),
           physical_name_for_index .B "txt".toList (254 : Idx .B),
           physical_name_for_index .B "txt".toList (255 : Idx .B)]) := by
  have ha253 : (analyzeNameOnly .B (physical_name_for_index .B "txt".toList (253 : Idx .B))).isSome = true := by decide
  have ha254 : (analyzeNameOnly .B (physical_name_for_index .B "txt".toList (254 : Idx .B))).isSome = true := by decide
  have ha255 : (analyzeNameOnly .B (physical_name_for_index .B "txt".toList (255 : Idx .B))).isSome = true := by decide
  calc syncLoop .B "txt".toList probe (m + 4) (253 : Idx .B) []
      = syncLoop .B "txt".toList probe (m + 3) (254 : Idx .B)
          [physical_name_for_index .B "txt".toList (253 : Idx .B)] := by
        simpa using syncLoop_found .B "txt".toList probe (m + 3) (253 : Idx .B) [] h253 ha253
    _ = syncLoop .B "txt".toList probe (m + 2) (255 : Idx .B)
          [physical_name_for_index .B "txt".toList (253 : Idx .B),
           physical_name_for_index .B "txt".toList (254 : Idx .B)] := by
        simpa using syncLoop_found .B "txt".toList probe (m + 2) (254 : Idx .B) _ h254 ha254
    _ = syncLoop .B "txt".toList probe (m + 1) (256 : Idx .B)
          [physical_name_for_index .B "txt".toList (253 : Idx .B),
           physical_name_for_index .B "txt".toList (254 : Idx .B),
           physical_name_for_index .B "txt".toList (255 : Idx .B)] := by
        simpa using syncLoop_found .B "txt".toList probe (m + 1) (255 : Idx .B) _ h255 ha255
    _ = some (.done,
          [physical_name_for_index .B "txt".toList (253 : Idx .B),
           physical_name_for_index .B "txt".toList (254 : Idx .B),
           physical_name_for_index .B "txt".toList (255 : Idx .B)]) :=
        syncLoop_stop .B "txt".toList probe m (256 : Idx .B) _ h256 rfl

/-- Witness for C1: a concrete probe answering 200 exactly for 253-255. -/
theorem claim_C1_witness :
    syncLoop .B "txt".toList
      (fun s =>
        if s == physical_name_for_index .B "txt".toList (253 : Idx .B)
            || s == physical_name_for_index .B "txt".toList (254 : Idx .B)
            || s == physical_name_for_index .B "txt".toList (255 : Idx .B)
        then 200 else 404) 4 (253 : Idx .B) []
      = some (.done,
          [physical_name_for_index .B "txt".toList (253 : Idx .B),
           physical_name_for_index .B "txt".toList (254 : Idx .B),
           physical_name_for_index .B "txt".toList (255 : Idx .B)]) :=
  claim_C1_family_B_scenario _ 0 (by decide) (by decide) (by decide) (by decide)

/-- Claim **C5**: during a family A walk, a known-gap 404 (here (18,5)) creates
no record and does not terminate: starting at (18,4) with a 200 there, two
steps later the loop is at (18,6) holding exactly the record for (18,4). -/
theorem claim_C5_family_A_gap (probe : List Char → Nat) (m : Nat)
    (acc : List (List Char))
    (h1 : probe (physical_name_for_index .A "txt".toList ((18, 4) : Idx .A)) = 200)
    (h2 : probe (physical_name_for_index .A "txt".toList ((18, 5) : Idx .A)) = 404) :
    pyTruthy (can_skip_index .A ((18, 5) : Idx .A)) = true ∧
    syncLoop .A "txt".toList probe (m + 2) ((18, 4) : Idx .A) acc
      = syncLoop .A "txt".toList probe m ((18, 6) : Idx .A)
          (acc ++ [physical_name_for_index .A "txt".toList ((18, 4) : Idx .A)]) := by
  refine ⟨by decide, ?_⟩
  have ha : (analyzeNameOnly .A (physical_name_for_index .A "txt".toList ((18, 4) : Idx .A))).isSome = true := by decide
  calc syncLoop .A "txt".toList probe (m + 2) ((18, 4) : Idx .A) acc
      = syncLoop .A "txt".toList probe (m + 1) ((18, 5) : Idx .A)
          (acc ++ [physical_name_for_index .A "txt".toList ((18, 4) : Idx .A)]) := by
        simpa using syncLoop_found .A "txt".toList probe (m + 1) ((18, 4) : Idx .A) acc h1 ha
    _ = syncLoop .A "txt".toList probe m ((18, 6) : Idx .A)
          (acc ++ [physical_name_for_index .A "txt".toList ((18, 4) : Idx .A)]) := by
        simpa using syncLoop_skip .A "txt".toList probe m ((18, 5) : Idx .A) _ h2 (by decide)

/-- Witness for C5 with a concrete probe. -/
theorem claim_C5_witness :
    pyTruthy (can_skip_index .A ((18, 5) : Idx .A)) = true ∧
    syncLoop .A "txt".toList
      (fun s => if s == physical_name_for_index .A "txt".toList ((18, 4) : Idx .A) then 200 else 404)
      2 ((18, 4) : Idx .A) []
      = syncLoop .A "txt".toList
          (fun s => if s == physical_name_for_index .A "txt".toList ((18, 4) : Idx .A) then 200 else 404)
          0 ((18, 6) : Idx .A)
          ([] ++ [physical_name_for_index .A "txt".toList ((18, 4) : Idx .A)]) :=
  claim_C5_family_A_gap _ 0 [] (by decide) (by decide)

/-- Claim **C10**: families B and C inherit the base `can_skip_index`, which
returns `False` for every index, so any 404 immediately terminates their
walk, regardless of the index. -/
theorem claim_C10_no_gaps_B_C :
    (∀ n : Idx .B, can_skip_index .B n = some false) ∧
    (∀ n : Idx .C, can_skip_index .C n = some false) ∧
    (∀ (fmt : List Char) (probe : List Char → Nat) (fuel : Nat) (n : Idx .B)
       (acc : List (List Char)),
       probe (physical_name_for_index .B fmt n) = 404 →
       syncLoop .B fmt probe (fuel + 1) n acc = some (.done, acc)) ∧
    (∀ (fmt : List Char) (probe : List Char → Nat) (fuel : Nat) (n : Idx .C)
       (acc : List (List Char)),
       probe (physical_name_for_index .C fmt n) = 404 →
       syncLoop .C fmt probe (fuel + 1) n acc = some (.done, acc)) := by
  refine ⟨fun _ => rfl, fun _ => rfl, ?_, ?_⟩
  · intro fmt probe fuel n acc h
    exact syncLoop_stop .B fmt probe fuel n acc h rfl
  · intro fmt probe fuel n acc h
    exact syncLoop_stop .C fmt probe fuel n acc h rfl

/-- Witness for C10 at an arbitrary-looking index far from the offsets. -/
theorem claim_C10_witness :
    syncLoop .B "txt".toList (fun _ => 404) 1 (9999 : Idx .B) [] = some (.done, []) ∧
    syncLoop .C "xml".toList (fun _ => 404) 1 (7 : Idx .C) [] = some (.done, []) :=
  ⟨claim_C10_no_gaps_B_C.2.2.1 "txt".toList (fun _ => 404) 0 (9999 : Idx .B) [] rfl,
   claim_C10_no_gaps_B_C.2.2.2 "xml".toList (fun _ => 404) 0 (7 : Idx .C) [] rfl⟩

/-- Counterexample to **C2** as stated: a 301 response does not raise — the
code's `raise_for_status()` is a no-op below 400 — so the loop silently
advances to index 254 and, there, terminates normally (`done`, not
`fatal`): the run was not aborted at the 301. -/
theorem claim_C2_counterexample :
    syncLoop .B "txt".toList
      (fun s => if s == physical_name_for_index .B "txt".toList (253 : Idx .B) then 301 else 404)
      2 (253 : Idx .B) []
      = some (.done, []) ∧ SyncOut.done ≠ SyncOut.fatal := by
  constructor
  · decide
  · decide

/-- Claim **C2 (amended)**: a probe status in [400, 600) other than 404 raises
immediately, aborting the family walk with no further record and — through
the outer loop — the entire run, with no further family processed; a
status outside 200/404 and outside [400, 600) (such as 301) raises
nothing: the loop advances to the next index without creating a record. -/
theorem claim_C2_amended :
    (∀ (f : Fam) (fmt : List Char) (probe : List Char → Nat) (fuel : Nat)
       (idx : Idx f) (acc : List (List Char)) (st : Nat),
       probe (physical_name_for_index f fmt idx) = st →
       400 ≤ st → st < 600 → st ≠ 404 →
       syncLoop f fmt probe (fuel + 1) idx acc = some (.fatal, acc)) ∧
    (∀ (fmt : List Char) (probe : List Char → Nat) (startIdx : (g : Fam) → Idx g)
       (fuel : Nat) (f : Fam) (fs : List Fam) (acc : List (List Char)) (st : Nat),
       probe (physical_name_for_index f fmt (startIdx f)) = st →
       400 ≤ st → st < 600 → st ≠ 404 →
       syncAll fmt probe startIdx (fuel + 1) (f :: fs) acc = some (.fatal, acc)) ∧
    (∀ (f : Fam) (fmt : List Char) (probe : List Char → Nat) (fuel : Nat)
       (idx : Idx f) (acc : List (List Char)) (st : Nat),
       probe (physical_name_for_index f fmt idx) = st →
       st ≠ 200 → st ≠ 404 → ¬(400 ≤ st ∧ st < 600) →
       syncLoop f fmt probe (fuel + 1) idx acc
         = syncLoop f fmt probe fuel (next_index f idx) acc) := by
  refine ⟨?_, ?_, ?_⟩
  · intro f fmt probe fuel idx acc st hst hge hlt hne
    exact syncLoop_fatal f fmt probe fuel idx acc st hst hge hlt hne
  · intro fmt probe startIdx fuel f fs acc st hst hge hlt hne
    exact syncAll_cons_fatal fmt probe startIdx (fuel + 1) f fs acc acc
      (syncLoop_fatal f fmt probe fuel (startIdx f) acc st hst hge hlt hne)
  · intro f fmt probe fuel idx acc st hst h200 h404 hrange
    exact syncLoop_other f fmt probe fuel idx acc st hst h200 h404 hrange

/-- Witness for the amended C2: 503 aborts the family walk and the whole
run before family C is touched; 301 advances from 10 to 11. -/
theorem claim_C2_witness :
    syncLoop .B "txt".toList (fun _ => 503) 1 (253 : Idx .B) [] = some (.fatal, []) ∧
    syncAll "txt".toList (fun _ => 503) offsetF 1 [.B, .C] [] = some (.fatal, []) ∧
    syncLoop .C "txt".toList (fun _ => 301) 1 (10 : Idx .C) []
      = syncLoop .C "txt".toList (fun _ => 301) 0 (11 : Idx .C) [] :=
  ⟨claim_C2_amended.1 .B "txt".toList (fun _ => 503) 0 (253 : Idx .B) [] 503
      rfl (by omega) (by omega) (by omega),
   claim_C2_amended.2.1 "txt".toList (fun _ => 503) offsetF 0 .B [.C] [] 503
      rfl (by omega) (by omega) (by omega),
   claim_C2_amended.2.2 .C "txt".toList (fun _ => 301) 0 (10 : Idx .C) [] 301
      rfl (by omega) (by omega) (by omega)⟩

/-- Counterexample to **C6** as stated: for an index that is neither
missing nor at number 53 — here (1, 1) — family A's `can_skip_index`
returns Python `None` (it falls off the end of the function), not the
boolean `False`. -/
theorem claim_C6_counterexample :
    can_skip_index .A ((1, 1) : Idx .A) = none ∧
    can_skip_index .A ((1, 1) : Idx .A) ≠ some false := by
  constructor
  · decide
  · decide

/-- Claim **C6 (amended)**: family A's `can_skip_index` returns `True` for every
index in the static missing list or with number component 53, and for
every other index returns `None` (Python's implicit return value), which
the synchronizer's truthiness test treats as false. -/
theorem claim_C6_amended (v n : Nat) :
    ((n = 53 ∨ ((v, n) : Idx .A) ∈ missingA) →
      can_skip_index .A ((v, n) : Idx .A) = some true) ∧
    (¬(n = 53 ∨ ((v, n) : Idx .A) ∈ missingA) →
      can_skip_index .A ((v, n) : Idx .A) = none ∧
      pyTruthy (can_skip_index .A ((v, n) : Idx .A)) = false) := by
  constructor
  · intro h
    show (if ((v, n) : Idx .A) ∈ missingA then some true
          else if n = 53 then some true else none) = some true
    rcases h with h | h
    · subst h
      by_cases hm : ((v, 53) : Idx .A) ∈ missingA
      · rw [if_pos hm]
      · rw [if_neg hm, if_pos rfl]
    · rw [if_pos h]
  · intro h
    push_neg at h
    constructor
    · show (if ((v, n) : Idx .A) ∈ missingA then some true
            else if n = 53 then some true else none) = none
      rw [if_neg h.2, if_neg h.1]
    · show pyTruthy (if ((v, n) : Idx .A) ∈ missingA then some true
            else if n = 53 then some true else none) = false
      rw [if_neg h.2, if_neg h.1]
      rfl

/-- Witness for the amended C6 at (18, 5) (missing) and (1, 1) (neither). -/
theorem claim_C6_witness :
    can_skip_index .A ((18, 5) : Idx .A) = some true ∧
    can_skip_index .A ((1, 1) : Idx .A) = none :=
  ⟨(claim_C6_amended 18 5).1 (Or.inr (by decide)),
   ((claim_C6_amended 1 1).2 (by decide)).1⟩

/-- Claim **C8**: `analyze` fails — producing no record — whenever the filename
does not match the family's grammar (for any family, in both the
filename-only mode used by the synchronizer and the content mode), and,
with content required, whenever a required anchor is absent: a family C
text document with no line containing `"Paris, "` (and likewise none
starting with `"from "`, or a family B document with no `"Final values"`
line) fails. -/
theorem claim_C8_parse_failures :
    (∀ (f : Fam) (inpath : List Char),
       parse_filename f inpath = none → analyzeNameOnly f inpath = none) ∧
    (∀ (inpath : List Char) (raw : List (List Char)),
       parse_filename .C inpath = none → analyzeTxtFullC inpath raw = none) ∧
    (∀ (inpath : List Char) (raw : List (List Char)),
       (∀ l ∈ cleanLines raw, containsSub "Paris, ".toList l = false) →
       analyzeTxtFullC inpath raw = none) ∧
    (∀ (inpath : List Char) (raw : List (List Char)),
       (∀ l ∈ cleanLines raw, startsWithLit "from ".toList l = false) →
       analyzeTxtFullC inpath raw = none) ∧
    (∀ (inpath : List Char) (raw : List (List Char)),
       (∀ l ∈ cleanLines raw, l ≠ "Final values".toList) →
       analyzeTxtFullB inpath raw = none) := by
  have hbase : ∀ (f : Fam) (inpath : List Char),
      parse_filename f inpath = none → analyzeNameOnly f inpath = none := by
    intro f inpath h
    cases hurl : remote_url f (basename inpath) with
    | none => simp [analyzeNameOnly, hurl]
    | some url => simp [analyzeNameOnly, hurl, h]
  refine ⟨hbase, ?_, ?_, ?_, ?_⟩
  · intro inpath raw h
    unfold analyzeTxtFullC
    rw [hbase .C inpath h]
    split <;> rfl
  · intro inpath raw h
    have hfilter : (cleanLines raw).filter (fun l => containsSub "Paris, ".toList l) = [] := by
      rw [List.filter_eq_nil_iff]
      intro l hl
      simpa using h l hl
    have hparis : parisDateC (cleanLines raw) = none := by
      unfold parisDateC
      rw [hfilter]
      rfl
    unfold analyzeTxtFullC
    have hct : analyzeTxtC (cleanLines raw) = none := by
      unfold analyzeTxtC
      rw [hparis]
    rw [hct]
    split
    · split <;> rfl
    · rfl
  · intro inpath raw h
    have hfilter : (cleanLines raw).filter (fun l => startsWithLit "from ".toList l) = [] := by
      rw [List.filter_eq_nil_iff]
      intro l hl
      simpa using h l hl
    have hfrom : fromDateC (cleanLines raw) = none := by
      unfold fromDateC
      rw [hfilter]
      rfl
    have hct : analyzeTxtC (cleanLines raw) = none := by
      unfold analyzeTxtC
      rw [hfrom]
      split <;> rfl
    unfold analyzeTxtFullC
    rw [hct]
    split
    · split <;> rfl
    · rfl
  · intro inpath raw h
    have hidx : (cleanLines raw).findIdx? (fun l => l == "Final values".toList) = none := by
      rw [List.findIdx?_eq_none_iff]
      intro l hl
      simpa using h l hl
    have hstart : startDateB (cleanLines raw) = none := by
      unfold startDateB
      rw [hidx]
    have hct : analyzeTxtB (cleanLines raw) = none := by
      unfold analyzeTxtB
      rw [hstart]
      split <;> rfl
    unfold analyzeTxtFullB
    rw [hct]
    split
    · split <;> rfl
    · rfl

/-- Witness for C8: a bad filename for every family, and a family C text
document whose content has no `"Paris, "` anchor. -/
theorem claim_C8_witness :
    analyzeNameOnly .C "bulletinx-010.txt".toList = none ∧
    analyzeTxtFullC "bulletinc-010.txt".toList
      ["IERS".toList, "from 2020 january 1, x".toList] = none :=
  ⟨claim_C8_parse_failures.1 .C "bulletinx-010.txt".toList (by decide),
   claim_C8_parse_failures.2.2.1 "bulletinc-010.txt".toList
      ["IERS".toList, "from 2020 january 1, x".toList] (by decide)⟩

/-! ## Date ordering lemmas -/

theorem mkDate_valid (y m d : Nat) (dt : Date) (h : mkDate y m d = some dt) :
    validDate dt := by
  unfold mkDate at h
  split at h
  · rename_i hcond
    have : Date.mk y m d = dt := Option.some.inj h
    subst this
    exact ⟨hcond.1, hcond.2.1, hcond.2.2.1, hcond.2.2.2.1,
      hcond.2.2.2.2.1, hcond.2.2.2.2.2⟩
  · exact Option.noConfusion h

theorem dateLeB_mk (a b c x y z : Nat) :
    dateLeB ⟨a, b, c⟩ ⟨x, y, z⟩ = true ↔
      (a < x ∨ (a = x ∧ (b < y ∨ (b = y ∧ c ≤ z)))) := by
  simp [dateLeB]

theorem dateLeB_addOneDay (d : Date) (h : validDate d) :
    dateLeB d (addOneDay d) = true := by
  obtain ⟨y, m, dd⟩ := d
  obtain ⟨h1, h2, h3, h4, h5, h6⟩ := h
  simp only [validDate] at *
  unfold addOneDay
  dsimp only
  split
  · rw [dateLeB_mk]; omega
  · split
    · rw [dateLeB_mk]; omega
    · rw [dateLeB_mk]; omega

theorem dateLeB_trans (a b c : Date) (h1 : dateLeB a b = true)
    (h2 : dateLeB b c = true) : dateLeB a c = true := by
  obtain ⟨a1, a2, a3⟩ := a
  obtain ⟨b1, b2, b3⟩ := b
  obtain ⟨c1, c2, c3⟩ := c
  rw [dateLeB_mk] at h1 h2 ⊢
  omega

theorem stopAnchorDateB_valid (lines : List (List Char)) (z : Date)
    (h : stopAnchorDateB lines = some z) : validDate z := by
  unfold stopAnchorDateB at h
  split at h
  · exact Option.noConfusion h
  · split at h
    · exact Option.noConfusion h
    · split at h
      · exact Option.noConfusion h
      · rename_i ymd _
        exact mkDate_valid ymd.1 ymd.2.1 ymd.2.2 z h

theorem addOneDayO_some (z z1 : Date) (h : addOneDayO z = some z1) :
    z1 = addOneDay z := by
  unfold addOneDayO at h
  split at h
  · exact Option.noConfusion h
  · exact (Option.some.inj h).symm

theorem stopAnchorDateA_valid (lines : List (List Char)) (z : Date)
    (h : stopAnchorDateA lines = some z) : validDate z := by
  unfold stopAnchorDateA at h
  split at h
  · exact Option.noConfusion h
  · split at h
    · exact Option.noConfusion h
    · split at h
      · exact Option.noConfusion h
      · exact mkDate_valid _ _ _ z h

theorem parse_xml_time_valid (tEl : Xml) (z : Date)
    (h : parse_xml_time tEl = some z) : validDate z := by
  unfold parse_xml_time at h
  split at h
  · split at h
    · exact mkDate_valid _ _ _ z h
    · exact Option.noConfusion h
  · exact Option.noConfusion h

theorem stopAnchorXmlAB_valid (root : Xml) (z : Date)
    (h : stopAnchorXmlAB root = some z) : validDate z := by
  unfold stopAnchorXmlAB at h
  split at h
  · exact Option.noConfusion h
  · exact parse_xml_time_valid _ z h

/-- Counterexample to **C4** as stated: this family C text document parses
successfully, yet its record has creation_date 2024-01-01 strictly after
validity_start 2020-01-01 — the parser copies the document's anchor dates
verbatim and enforces no ordering. -/
theorem claim_C4_counterexample :
    ((analyzeTxtFullC "bulletinc-100.txt".toList
        ["IERS".toList, "Paris, 1 january 2024".toList,
         "from 2020 january 1, blah".toList]).map
      (fun p => (p.creation_date, p.validity_start)))
      = some (some ⟨2024, 1, 1⟩, some ⟨2020, 1, 1⟩) ∧
    dateLeB ⟨2024, 1, 1⟩ ⟨2020, 1, 1⟩ = false := by
  constructor
  · decide
  · decide

/-- Claim **C4 (amended)**: the parsers copy the anchor dates from the
document and enforce no ordering, so the invariant is not guaranteed for
every parsable document; it holds exactly when the document's own anchor
dates are ordered.  For every family and both encodings: the record's
creation_date and validity_start are the document's anchor dates
(families A and B additionally set validity_stop = last-entry anchor plus
one day), so whenever the creation anchor is at most the start anchor
(and, for A and B, the start anchor at most the last-entry anchor), the
record satisfies creation_date ≤ validity_start (≤ validity_stop where
present). -/
theorem claim_C4_amended :
    (∀ (inpath : List Char) (raw : List (List Char)) (c s z z1 : Date),
       creationDateA (cleanLines raw) = some c →
       startDateA (cleanLines raw) = some s →
       stopAnchorDateA (cleanLines raw) = some z →
       addOneDayO z = some z1 →
       endsWithLit ".txt".toList inpath = true →
       (analyzeNameOnly .A inpath).isSome = true →
       dateLeB c s = true → dateLeB s z = true →
       ((analyzeTxtFullA inpath raw).map
          (fun p => (p.creation_date, p.validity_start, p.validity_stop)))
         = some (some c, some s, some z1) ∧
       dateLeB c s = true ∧ dateLeB s z1 = true ∧ dateLeB c z1 = true) ∧
    (∀ (inpath : List Char) (raw : List (List Char)) (c s z z1 : Date),
       creationDateB (cleanLines raw) = some c →
       startDateB (cleanLines raw) = some s →
       stopAnchorDateB (cleanLines raw) = some z →
       addOneDayO z = some z1 →
       endsWithLit ".txt".toList inpath = true →
       (analyzeNameOnly .B inpath).isSome = true →
       dateLeB c s = true → dateLeB s z = true →
       ((analyzeTxtFullB inpath raw).map
          (fun p => (p.creation_date, p.validity_start, p.validity_stop)))
         = some (some c, some s, some z1) ∧
       dateLeB c s = true ∧ dateLeB s z1 = true ∧ dateLeB c z1 = true) ∧
    (∀ (inpath : List Char) (raw : List (List Char)) (c s : Date),
       parisDateC (cleanLines raw) = some c →
       fromDateC (cleanLines raw) = some s →
       endsWithLit ".txt".toList inpath = true →
       (analyzeNameOnly .C inpath).isSome = true →
       dateLeB c s = true →
       ((analyzeTxtFullC inpath raw).map
          (fun p => (p.creation_date, p.validity_start)))
         = some (some c, some s) ∧ dateLeB c s = true) ∧
    (∀ (inpath : List Char) (raw : List (List Char)) (c s : Date),
       creationDateD (cleanLines raw) = some c →
       startDateD (cleanLines raw) = some s →
       endsWithLit ".txt".toList inpath = true →
       (analyzeNameOnly .D inpath).isSome = true →
       dateLeB c s = true →
       ((analyzeTxtFullD inpath raw).map
          (fun p => (p.creation_date, p.validity_start)))
         = some (some c, some s) ∧ dateLeB c s = true) ∧
    (∀ (inpath : List Char) (root : Xml) (c s z z1 : Date),
       creationXmlAB root = some c →
       startXmlAB root = some s →
       stopAnchorXmlAB root = some z →
       addOneDayO z = some z1 →
       endsWithLit ".xml".toList inpath = true →
       (analyzeNameOnly .A inpath).isSome = true →
       dateLeB c s = true → dateLeB s z = true →
       ((analyzeXmlFullA inpath root).map
          (fun p => (p.creation_date, p.validity_start, p.validity_stop)))
         = some (some c, some s, some z1) ∧
       dateLeB c s = true ∧ dateLeB s z1 = true ∧ dateLeB c z1 = true) ∧
    (∀ (inpath : List Char) (root : Xml) (c s z z1 : Date),
       creationXmlAB root = some c →
       startXmlAB root = some s →
       stopAnchorXmlAB root = some z →
       addOneDayO z = some z1 →
       endsWithLit ".xml".toList inpath = true →
       (analyzeNameOnly .B inpath).isSome = true →
       dateLeB c s = true → dateLeB s z = true →
       ((analyzeXmlFullB inpath root).map
          (fun p => (p.creation_date, p.validity_start, p.validity_stop)))
         = some (some c, some s, some z1) ∧
       dateLeB c s = true ∧ dateLeB s z1 = true ∧ dateLeB c z1 = true) ∧
    (∀ (inpath : List Char) (root : Xml) (c s : Date),
       creationXmlCD root = some c →
       startXmlC root = some s →
       endsWithLit ".xml".toList inpath = true →
       (analyzeNameOnly .C inpath).isSome = true →
       dateLeB c s = true →
       ((analyzeXmlFullC inpath root).map
          (fun p => (p.creation_date, p.validity_start)))
         = some (some c, some s) ∧ dateLeB c s = true) ∧
    (∀ (inpath : List Char) (root : Xml) (c s : Date),
       creationXmlCD root = some c →
       startXmlD root = some s →
       endsWithLit ".xml".toList inpath = true →
       (analyzeNameOnly .D inpath).isSome = true →
       dateLeB c s = true →
       ((analyzeXmlFullD inpath root).map
          (fun p => (p.creation_date, p.validity_start)))
         = some (some c, some s) ∧ dateLeB c s = true) := by
  refine ⟨?_, ?_, ?_, ?_, ?_, ?_, ?_, ?_⟩
  · intro inpath raw c s z z1 hc hs hz hz1 hext hbase hcs hsz
    obtain ⟨base, hb⟩ := Option.isSome_iff_exists.mp hbase
    have hct : analyzeTxtA (cleanLines raw) = some (c, s, z1) := by
      simp only [analyzeTxtA, hc, hs, hz, hz1]
    have hzvalid := stopAnchorDateA_valid (cleanLines raw) z hz
    have hz1eq := addOneDayO_some z z1 hz1
    have hzz1 : dateLeB z z1 = true := by
      rw [hz1eq]; exact dateLeB_addOneDay z hzvalid
    have hsz1 : dateLeB s z1 = true := dateLeB_trans s z z1 hsz hzz1
    have hcz1 : dateLeB c z1 = true := dateLeB_trans c s z1 hcs hsz1
    refine ⟨?_, hcs, hsz1, hcz1⟩
    unfold analyzeTxtFullA
    rw [if_pos hext, hb, hct]
    rfl
  · intro inpath raw c s z z1 hc hs hz hz1 hext hbase hcs hsz
    obtain ⟨base, hb⟩ := Option.isSome_iff_exists.mp hbase
    have hct : analyzeTxtB (cleanLines raw) = some (c, s, z1) := by
      simp only [analyzeTxtB, hc, hs, hz, hz1]
    have hzvalid := stopAnchorDateB_valid (cleanLines raw) z hz
    have hz1eq := addOneDayO_some z z1 hz1
    have hzz1 : dateLeB z z1 = true := by
      rw [hz1eq]; exact dateLeB_addOneDay z hzvalid
    have hsz1 : dateLeB s z1 = true := dateLeB_trans s z z1 hsz hzz1
    have hcz1 : dateLeB c z1 = true := dateLeB_trans c s z1 hcs hsz1
    refine ⟨?_, hcs, hsz1, hcz1⟩
    unfold analyzeTxtFullB
    rw [if_pos hext, hb, hct]
    rfl
  · intro inpath raw c s hp hf hext hbase hcs
    obtain ⟨base, hb⟩ := Option.isSome_iff_exists.mp hbase
    have hct : analyzeTxtC (cleanLines raw) = some (c, s) := by
      simp only [analyzeTxtC, hp, hf]
    refine ⟨?_, hcs⟩
    unfold analyzeTxtFullC
    rw [if_pos hext, hb, hct]
    rfl
  · intro inpath raw c s hc hs hext hbase hcs
    obtain ⟨base, hb⟩ := Option.isSome_iff_exists.mp hbase
    have hct : analyzeTxtD (cleanLines raw) = some (c, s) := by
      simp only [analyzeTxtD, hc, hs]
    refine ⟨?_, hcs⟩
    unfold analyzeTxtFullD
    rw [if_pos hext, hb, hct]
    rfl
  · intro inpath root c s z z1 hc hs hz hz1 hext hbase hcs hsz
    obtain ⟨base, hb⟩ := Option.isSome_iff_exists.mp hbase
    have hct : analyzeXmlAB root = some (c, s, z1) := by
      simp only [analyzeXmlAB, hc, hs, hz, hz1]
    have hzvalid := stopAnchorXmlAB_valid root z hz
    have hz1eq := addOneDayO_some z z1 hz1
    have hzz1 : dateLeB z z1 = true := by
      rw [hz1eq]; exact dateLeB_addOneDay z hzvalid
    have hsz1 : dateLeB s z1 = true := dateLeB_trans s z z1 hsz hzz1
    have hcz1 : dateLeB c z1 = true := dateLeB_trans c s z1 hcs hsz1
    refine ⟨?_, hcs, hsz1, hcz1⟩
    unfold analyzeXmlFullA
    rw [if_pos hext, hb, hct]
    rfl
  · intro inpath root c s z z1 hc hs hz hz1 hext hbase hcs hsz
    obtain ⟨base, hb⟩ := Option.isSome_iff_exists.mp hbase
    have hct : analyzeXmlAB root = some (c, s, z1) := by
      simp only [analyzeXmlAB, hc, hs, hz, hz1]
    have hzvalid := stopAnchorXmlAB_valid root z hz
    have hz1eq := addOneDayO_some z z1 hz1
    have hzz1 : dateLeB z z1 = true := by
      rw [hz1eq]; exact dateLeB_addOneDay z hzvalid
    have hsz1 : dateLeB s z1 = true := dateLeB_trans s z z1 hsz hzz1
    have hcz1 : dateLeB c z1 = true := dateLeB_trans c s z1 hcs hsz1
    refine ⟨?_, hcs, hsz1, hcz1⟩
    unfold analyzeXmlFullB
    rw [if_pos hext, hb, hct]
    rfl
  · intro inpath root c s hc hs hext hbase hcs
    obtain ⟨base, hb⟩ := Option.isSome_iff_exists.mp hbase
    have hct : analyzeXmlC root = some (c, s) := by
      simp only [analyzeXmlC, hc, hs]
    refine ⟨?_, hcs⟩
    unfold analyzeXmlFullC
    rw [if_pos hext, hb, hct]
    rfl
  · intro inpath root c s hc hs hext hbase hcs
    obtain ⟨base, hb⟩ := Option.isSome_iff_exists.mp hbase
    have hct : analyzeXmlD root = some (c, s) := by
      simp only [analyzeXmlD, hc, hs]
    refine ⟨?_, hcs⟩
    unfold analyzeXmlFullD
    rw [if_pos hext, hb, hct]
    rfl

/-- Witness for the amended C4: a concrete document with ordered anchor
dates for each family and each encoding. -/
theorem claim_C4_witness :
    (((analyzeTxtFullA "bulletina-xviii-005.txt".toList sampleTxtA).map
      (fun p => (p.creation_date, p.validity_start, p.validity_stop)))
      = some (some ⟨2000, 1, 1⟩, some ⟨2000, 1, 5⟩, some ⟨2000, 2, 2⟩) ∧
      dateLeB ⟨2000, 1, 1⟩ ⟨2000, 1, 5⟩ = true ∧
      dateLeB ⟨2000, 1, 5⟩ ⟨2000, 2, 2⟩ = true ∧
      dateLeB ⟨2000, 1, 1⟩ ⟨2000, 2, 2⟩ = true) ∧
    (((analyzeTxtFullB "bulletinb-253.txt".toList sampleTxtB).map
      (fun p => (p.creation_date, p.validity_start, p.validity_stop)))
      = some (some ⟨2024, 1, 1⟩, some ⟨2024, 1, 5⟩, some ⟨2024, 2, 2⟩) ∧
      dateLeB ⟨2024, 1, 1⟩ ⟨2024, 1, 5⟩ = true ∧
      dateLeB ⟨2024, 1, 5⟩ ⟨2024, 2, 2⟩ = true ∧
      dateLeB ⟨2024, 1, 1⟩ ⟨2024, 2, 2⟩ = true) ∧
    (((analyzeTxtFullC "bulletinc-100.txt".toList sampleTxtC).map
      (fun p => (p.creation_date, p.validity_start)))
      = some (some ⟨2020, 1, 1⟩, some ⟨2024, 1, 1⟩) ∧
      dateLeB ⟨2020, 1, 1⟩ ⟨2024, 1, 1⟩ = true) ∧
    (((analyzeTxtFullD "bulletind-021.txt".toList sampleTxtD).map
      (fun p => (p.creation_date, p.validity_start)))
      = some (some ⟨2024, 1, 1⟩, some ⟨2024, 1, 2⟩) ∧
      dateLeB ⟨2024, 1, 1⟩ ⟨2024, 1, 2⟩ = true) ∧
    (((analyzeXmlFullA "bulletina-xviii-005.xml".toList sampleXmlAB).map
      (fun p => (p.creation_date, p.validity_start, p.validity_stop)))
      = some (some ⟨2024, 1, 1⟩, some ⟨2024, 1, 5⟩, some ⟨2024, 2, 2⟩) ∧
      dateLeB ⟨2024, 1, 1⟩ ⟨2024, 1, 5⟩ = true ∧
      dateLeB ⟨2024, 1, 5⟩ ⟨2024, 2, 2⟩ = true ∧
      dateLeB ⟨2024, 1, 1⟩ ⟨2024, 2, 2⟩ = true) ∧
    (((analyzeXmlFullB "bulletinb-253.xml".toList sampleXmlAB).map
      (fun p => (p.creation_date, p.validity_start, p.validity_stop)))
      = some (some ⟨2024, 1, 1⟩, some ⟨2024, 1, 5⟩, some ⟨2024, 2, 2⟩) ∧
      dateLeB ⟨2024, 1, 1⟩ ⟨2024, 1, 5⟩ = true ∧
      dateLeB ⟨2024, 1, 5⟩ ⟨2024, 2, 2⟩ = true ∧
      dateLeB ⟨2024, 1, 1⟩ ⟨2024, 2, 2⟩ = true) ∧
    (((analyzeXmlFullC "bulletinc-010.xml".toList sampleXmlC).map
      (fun p => (p.creation_date, p.validity_start)))
      = some (some ⟨2024, 1, 1⟩, some ⟨2024, 1, 5⟩) ∧
      dateLeB ⟨2024, 1, 1⟩ ⟨2024, 1, 5⟩ = true) ∧
    (((analyzeXmlFullD "bulletind-021.xml".toList sampleXmlD).map
      (fun p => (p.creation_date, p.validity_start)))
      = some (some ⟨2024, 1, 1⟩, some ⟨2024, 1, 5⟩) ∧
      dateLeB ⟨2024, 1, 1⟩ ⟨2024, 1, 5⟩ = true) :=
  ⟨claim_C4_amended.1 "bulletina-xviii-005.txt".toList sampleTxtA
      ⟨2000, 1, 1⟩ ⟨2000, 1, 5⟩ ⟨2000, 2, 1⟩ ⟨2000, 2, 2⟩
      (by decide) (by decide) (by decide) (by decide) (by decide) (by decide)
      (by decide) (by decide),
   claim_C4_amended.2.1 "bulletinb-253.txt".toList sampleTxtB
      ⟨2024, 1, 1⟩ ⟨2024, 1, 5⟩ ⟨2024, 2, 1⟩ ⟨2024, 2, 2⟩
      (by decide) (by decide) (by decide) (by decide) (by decide) (by decide)
      (by decide) (by decide),
   claim_C4_amended.2.2.1 "bulletinc-100.txt".toList sampleTxtC
      ⟨2020, 1, 1⟩ ⟨2024, 1, 1⟩ (by decide) (by decide) (by decide) (by decide)
      (by decide),
   claim_C4_amended.2.2.2.1 "bulletind-021.txt".toList sampleTxtD
      ⟨2024, 1, 1⟩ ⟨2024, 1, 2⟩ (by decide) (by decide) (by decide) (by decide)
      (by decide),
   claim_C4_amended.2.2.2.2.1 "bulletina-xviii-005.xml".toList sampleXmlAB
      ⟨2024, 1, 1⟩ ⟨2024, 1, 5⟩ ⟨2024, 2, 1⟩ ⟨2024, 2, 2⟩
      (by decide) (by decide) (by decide) (by decide) (by decide) (by decide)
      (by decide) (by decide),
   claim_C4_amended.2.2.2.2.2.1 "bulletinb-253.xml".toList sampleXmlAB
      ⟨2024, 1, 1⟩ ⟨2024, 1, 5⟩ ⟨2024, 2, 1⟩ ⟨2024, 2, 2⟩
      (by decide) (by decide) (by decide) (by decide) (by decide) (by decide)
      (by decide) (by decide),
   claim_C4_amended.2.2.2.2.2.2.1 "bulletinc-010.xml".toList sampleXmlC
      ⟨2024, 1, 1⟩ ⟨2024, 1, 5⟩ (by decide) (by decide) (by decide) (by decide)
      (by decide),
   claim_C4_amended.2.2.2.2.2.2.2 "bulletind-021.xml".toList sampleXmlD
      ⟨2024, 1, 1⟩ ⟨2024, 1, 5⟩ (by decide) (by decide) (by decide) (by decide)
      (by decide)⟩

/-! ## `identify` versus its specification -/

theorem grammarWord_bcd (f : Fam) (hf : f ≠ .A) (stem : List Char) :
    grammarWord f stem ↔ ∃ num, stem = famLit f ++ num ∧ num.length = 3 ∧
      num.all Char.isDigit = true := by
  cases f with
  | A => exact absurd rfl hf
  | B => exact Iff.rfl
  | C => exact Iff.rfl
  | D => exact Iff.rfl

/-- Characterization of the extension-plus-anchor match: the rest after
the grammar piece is one non-newline character (the wildcard dot), the
extension tail, and optionally one trailing newline (the `$` anchor). -/
theorem reChars_ext_match (extTail r2 : List Char)
    (hnd : extTail.all (fun c => c != '.') = true) :
    (match reChars ('.' :: extTail) r2 with
      | none => false
      | some rest => dollarEnd rest) = true
    ↔ ∃ c, (c != '\n') = true ∧
        (r2 = c :: extTail ∨ r2 = (c :: extTail) ++ ['\n']) := by
  constructor
  · intro h
    cases hre : reChars ('.' :: extTail) r2 with
    | none => rw [hre] at h; exact absurd h (by simp)
    | some u =>
      rw [hre] at h
      have hu : u = [] ∨ u = ['\n'] := by
        simpa [dollarEnd] using h
      obtain ⟨c, rs, hr2, hn, hru⟩ := (reChars_wild extTail r2 u).mp hre
      have hrs : rs = extTail ++ u := (reChars_lit extTail rs u hnd).mp hru
      refine ⟨c, hn, ?_⟩
      rcases hu with rfl | rfl
      · left; rw [hr2, hrs]; simp
      · right; rw [hr2, hrs]; simp
  · rintro ⟨c, hn, hcase⟩
    rcases hcase with hc | hc
    · have hre : reChars ('.' :: extTail) r2 = some [] :=
        (reChars_wild extTail r2 []).mpr ⟨c, extTail, hc, hn,
          (reChars_lit extTail extTail [] hnd).mpr (by simp)⟩
      rw [hre]; rfl
    · have hre : reChars ('.' :: extTail) r2 = some ['\n'] :=
        (reChars_wild extTail r2 ['\n']).mpr ⟨c, extTail ++ ['\n'],
          by rw [hc]; simp, hn,
          (reChars_lit extTail (extTail ++ ['\n']) ['\n'] hnd).mpr rfl⟩
      rw [hre]; rfl

/-- One extension's full-match test inside `identify`, characterized: the
basename is a grammar word, then one arbitrary non-newline character (the
unescaped regex dot), then the extension tail, optionally followed by one
trailing newline. -/
theorem identify_ext_iff (f : Fam) (s ext extTail : List Char)
    (hext : ext = '.' :: extTail)
    (hnd : extTail.all (fun c => c != '.') = true) :
    (match parse_filename_rest f s with
      | none => false
      | some r =>
        match reChars ext r.2 with
        | none => false
        | some rest => dollarEnd rest) = true
    ↔ ∃ stem c, (c != '\n') = true ∧
        (s = stem ++ c :: extTail ∨ s = stem ++ (c :: extTail) ++ ['\n']) ∧
        grammarWord f stem := by
  subst hext
  constructor
  · intro h
    split at h
    · exact absurd h (by simp)
    · rename_i r hr
      obtain ⟨c, hn, hcase⟩ := (reChars_ext_match extTail r.2 hnd).mp h
      by_cases hfA : f = .A
      · subst hfA
        obtain ⟨rom, hv, hs, hne, hall, hlen, hdig⟩ :=
          parse_rest_A_inv s r.1.1 r.1.2 r.2 hr
        refine ⟨famLit .A ++ rom ++ '-' :: r.1.2, c, hn, ?_, ?_⟩
        · rcases hcase with hc | hc
          · left; rw [hs, hc]; simp [List.append_assoc]
          · right; rw [hs, hc]; simp [List.append_assoc]
        · exact ⟨rom, r.1.2, by simp [List.append_assoc], by
            intro he; rw [he] at hne; exact absurd hne (by simp), hall, hlen, hdig⟩
      · obtain ⟨hv, hs, hlen, hdig⟩ :=
          parse_rest_bcd_inv f hfA s r.1.1 r.1.2 r.2 hr
        refine ⟨famLit f ++ r.1.2, c, hn, ?_, ?_⟩
        · rcases hcase with hc | hc
          · left; rw [hs, hc]; simp [List.append_assoc]
          · right; rw [hs, hc]; simp [List.append_assoc]
        · exact (grammarWord_bcd f hfA _).mpr ⟨r.1.2, rfl, hlen, hdig⟩
  · rintro ⟨stem, c, hn, hcase, hword⟩
    have hrest2 : ∀ rest2 : List Char,
        (rest2 = c :: extTail ∨ rest2 = (c :: extTail) ++ ['\n']) →
        (match reChars ('.' :: extTail) rest2 with
          | none => false
          | some rest => dollarEnd rest) = true := by
      intro rest2 hc2
      exact (reChars_ext_match extTail rest2 hnd).mpr ⟨c, hn, hc2⟩
    by_cases hfA : f = .A
    · subst hfA
      obtain ⟨rom, num, hstem, hne, hall, hlen, hdig⟩ := hword
      have hne2 : rom.isEmpty = false := by
        cases rom with
        | nil => exact absurd rfl hne
        | cons a b => rfl
      rcases hcase with hc | hc
      · have hs : s = famLit .A ++ (rom ++ '-' :: (num ++ (c :: extTail))) := by
          rw [hc, hstem]
          simp [List.append_assoc]
        rw [hs, parse_rest_A rom num (c :: extTail) hne2 hall hlen hdig]
        exact hrest2 (c :: extTail) (Or.inl rfl)
      · have hs : s = famLit .A
            ++ (rom ++ '-' :: (num ++ (c :: (extTail ++ ['\n'])))) := by
          rw [hc, hstem]
          simp [List.append_assoc]
        rw [hs, parse_rest_A rom num (c :: (extTail ++ ['\n'])) hne2 hall hlen hdig]
        exact hrest2 (c :: (extTail ++ ['\n'])) (Or.inr (by simp))
    · rw [grammarWord_bcd f hfA] at hword
      obtain ⟨num, hstem, hlen, hdig⟩ := hword
      rcases hcase with hc | hc
      · have hs : s = famLit f ++ (num ++ (c :: extTail)) := by
          rw [hc, hstem]
          simp [List.append_assoc]
        rw [hs, parse_rest_bcd f hfA num (c :: extTail) hlen hdig]
        exact hrest2 (c :: extTail) (Or.inl rfl)
      · have hs : s = famLit f ++ (num ++ (c :: (extTail ++ ['\n']))) := by
          rw [hc, hstem]
          simp [List.append_assoc]
        rw [hs, parse_rest_bcd f hfA num (c :: (extTail ++ ['\n'])) hlen hdig]
        exact hrest2 (c :: (extTail ++ ['\n'])) (Or.inr (by simp))

/-- Counterexample to **C9** as stated: the basename `bulletinb-123xtxt`
does not end in either accepted extension, yet family B's `identify`
accepts it — the `.` of the spliced `".txt"` is an unescaped regex
wildcard that matches the `x`. -/
theorem claim_C9_counterexample :
    identify .B ["bulletinb-123xtxt".toList] = true ∧
    ¬ identifySpec .B ["bulletinb-123xtxt".toList] := by
  constructor
  · decide
  · rintro ⟨p, hp, stem, ext, hmem, hcat, hword⟩
    have hpp : p = "bulletinb-123xtxt".toList := (List.cons.inj hp.symm).1
    subst hpp
    have hb : basename "bulletinb-123xtxt".toList = "bulletinb-123xtxt".toList := by
      decide
    rw [hb] at hcat
    have hlen17 : ("bulletinb-123xtxt".toList).length = 17 := by decide
    simp only [extensionsF, List.mem_cons, List.not_mem_nil, or_false] at hmem
    rcases hmem with rfl | rfl
    · have hlen : stem.length = 13 := by
        have hl := congrArg List.length hcat
        rw [hlen17, List.length_append] at hl
        have : (".txt".toList).length = 4 := by decide
        omega
      have hdrop := congrArg (List.drop 13) hcat
      rw [show (13 : Nat) = stem.length from hlen.symm, List.drop_left] at hdrop
      rw [hlen] at hdrop
      have : ("bulletinb-123xtxt".toList).drop 13 = "xtxt".toList := by decide
      rw [this] at hdrop
      exact absurd hdrop (by decide)
    · have hlen : stem.length = 13 := by
        have hl := congrArg List.length hcat
        rw [hlen17, List.length_append] at hl
        have : (".xml".toList).length = 4 := by decide
        omega
      have hdrop := congrArg (List.drop 13) hcat
      rw [show (13 : Nat) = stem.length from hlen.symm, List.drop_left] at hdrop
      rw [hlen] at hdrop
      have : ("bulletinb-123xtxt".toList).drop 13 = "xtxt".toList := by decide
      rw [this] at hdrop
      exact absurd hdrop (by decide)

/-- Claim **C9 (amended)**: for every family, `identify(paths)` is true iff
exactly one path is given and its basename is a grammar word followed by
one arbitrary NON-NEWLINE character (the dot of the spliced extension is
an unescaped regex wildcard, which does not match a newline) and then
`txt` or `xml`, optionally followed by a single trailing newline (matched
by the `$` anchor); in particular `bulletinb-123xtxt` is accepted even
though its extension is not `.txt`. -/
theorem claim_C9_amended (f : Fam) (paths : List (List Char)) :
    identify f paths = true ↔ identifySpecWild f paths := by
  cases paths with
  | nil =>
    simp [identify, identifySpecWild]
  | cons p ps =>
    cases ps with
    | cons q qs =>
      constructor
      · intro h; exact absurd h (by simp [identify])
      · rintro ⟨p', hp', _⟩
        exact absurd hp' (by simp)
    | nil =>
      have htxt := identify_ext_iff f (basename p) ".txt".toList "txt".toList rfl
        (by decide)
      have hxml := identify_ext_iff f (basename p) ".xml".toList "xml".toList rfl
        (by decide)
      constructor
      · intro h
        have h2 : (match parse_filename_rest f (basename p) with
            | none => false
            | some r =>
              match reChars ".txt".toList r.2 with
              | none => false
              | some rest => dollarEnd rest) = true ∨
            (match parse_filename_rest f (basename p) with
            | none => false
            | some r =>
              match reChars ".xml".toList r.2 with
              | none => false
              | some rest => dollarEnd rest) = true := by
          simpa [identify, extensionsF, Bool.or_eq_true] using h
        rcases h2 with h2 | h2
        · obtain ⟨stem, c, hn, hcase, hword⟩ := htxt.mp h2
          exact ⟨p, rfl, stem, c, "txt".toList, by simp [extensionsF], hn, hcase, hword⟩
        · obtain ⟨stem, c, hn, hcase, hword⟩ := hxml.mp h2
          exact ⟨p, rfl, stem, c, "xml".toList, by simp [extensionsF], hn, hcase, hword⟩
      · rintro ⟨p', hp', stem, c, tail, hmem, hn, hcase, hword⟩
        have hpp : p' = p := (List.cons.inj hp'.symm).1
        rw [hpp] at hcase
        simp only [extensionsF, List.mem_cons, List.not_mem_nil, or_false] at hmem
        have hor : (match parse_filename_rest f (basename p) with
            | none => false
            | some r =>
              match reChars ".txt".toList r.2 with
              | none => false
              | some rest => dollarEnd rest) = true ∨
            (match parse_filename_rest f (basename p) with
            | none => false
            | some r =>
              match reChars ".xml".toList r.2 with
              | none => false
              | some rest => dollarEnd rest) = true := by
          rcases hmem with htl | htl
          · left
            apply htxt.mpr
            refine ⟨stem, c, hn, ?_, hword⟩
            have htl2 : tail = "txt".toList := (List.cons.inj htl).2
            rw [← htl2]; exact hcase
          · right
            apply hxml.mpr
            refine ⟨stem, c, hn, ?_, hword⟩
            have htl2 : tail = "xml".toList := (List.cons.inj htl).2
            rw [← htl2]; exact hcase
        rcases hor with h2 | h2
        · simp [identify, extensionsF, Bool.or_eq_true]
          left; exact h2
        · simp [identify, extensionsF, Bool.or_eq_true]
          right; exact h2

end MuninnIers
